import Mathlib

/-!
Verification of the `task-tool` extension (subprocess task orchestration engine).

This file gives a shallow embedding, in Lean 4, of the parts of the source that
the specification's claims are about:

* `task-params.ts`: parameter normalization (`normalizeTaskParams`,
  `normalizeModelInput`, `normalizeThinkingInput`, `normalizeForkInput`,
  `parseTaskItems`, `parseProviderModel`, `resolveModel`);
* `task-config.ts`: configuration resolution (`resolveTaskConfig`,
  `resolveThinkingLevel`, `buildSubprocessArgs`);
* the extension body: usage aggregation (`aggregateUsage`), chain prompt
  substitution (`buildChainPrompt`, replicating JavaScript
  `String.prototype.replace` semantics for string replacements), the
  line-oriented event-stream parser (`parseJsonLine` plus the stdout
  buffering in `runSingleTask`), task status classification (`isTaskError`,
  `getTaskStatus`), the close-handler abort tagging, the fork prerequisite
  check of `execute`, the chain-mode orchestration loop, and the
  concurrency-limited scheduler (`mapWithConcurrencyLimit`), the latter
  modelled as a nondeterministic transition system over the single-threaded
  cooperative interleavings of its worker pool.

Untyped JavaScript values are modelled by the inductive type `JVal`
(`undefined` is modelled as a missing value, i.e. `Option JVal = none`).
JavaScript numbers are modelled as rationals: none of the claims under
verification depend on floating-point rounding.
-/

namespace TaskTool

/-- Model of an untyped JavaScript/JSON value. `undefined` is represented by
absence (`Option JVal = none`), never by a constructor. -/
inductive JVal : Type where
  | null : JVal
  | bool : Bool → JVal
  | num : ℚ → JVal
  | str : String → JVal
  | arr : List JVal → JVal
  | obj : List (String × JVal) → JVal

/-- Property access `value.key` on an arbitrary JavaScript value: defined keys
exist only on object literals in our model; everything else (and a missing
key) yields `undefined` (`none`). -/
def JVal.getField : JVal → String → Option JVal
  | .obj fields, key => (fields.find? (fun f => f.1 = key)).map (·.2)
  | _, _ => none

/-- `isRecord` from `task-params.ts`:
`value !== null && typeof value === "object"`. Note that JavaScript arrays
satisfy this predicate (`typeof [] === "object"`). -/
def isRecord : JVal → Bool
  | .arr _ => true
  | .obj _ => true
  | _ => false

/-- `typeof value === "string"`. -/
def JVal.isStr : JVal → Bool
  | .str _ => true
  | _ => false

/-- JavaScript string truthiness: a string is truthy iff it is non-empty. -/
def strTruthy (s : String) : Bool := s ≠ ""

/-- `String.prototype.trim`: strip leading and trailing whitespace. -/
def jsTrim (s : String) : String :=
  String.mk (((s.toList.dropWhile Char.isWhitespace).reverse.dropWhile Char.isWhitespace).reverse)

/-- Truthiness of an optional string (`undefined` and `""` are falsy). -/
def optStrTruthy : Option String → Bool
  | none => false
  | some s => strTruthy s

/-- `MAX_PARALLEL_TASKS` from `task-params.ts`. -/
def MAX_PARALLEL_TASKS : Nat := 8

/-- `VALID_THINKING_LEVELS` from `task-params.ts`. -/
def VALID_THINKING_LEVELS : List String := ["off", "minimal", "low", "medium", "high", "xhigh"]

/-- `VALID_THINKING_OPTIONS` from `task-params.ts`. -/
def VALID_THINKING_OPTIONS : List String := "inherit" :: VALID_THINKING_LEVELS

/-- `isTaskThinking` from `task-params.ts`. -/
def isTaskThinking (value : String) : Bool := VALID_THINKING_OPTIONS.contains value

/-- `TaskWorkItem` from `task-params.ts`. Thinking values are kept as strings
(the source constrains them with the `TaskThinking` string union). -/
structure TaskWorkItem : Type where
  prompt : String
  skill : Option String
  model : Option String
  thinking : Option String
  fork : Bool
  deriving DecidableEq, Repr

/-- `ProviderModel` from `task-params.ts`. -/
structure ProviderModel : Type where
  provider : String
  modelId : String
  label : String
  deriving DecidableEq, Repr

/-- The three execution modes. -/
inductive Mode : Type where
  | single
  | chain
  | parallel
  deriving DecidableEq, Repr

/-- `NormalizedParams` from `task-params.ts` (the per-mode union collapsed to
a mode tag plus the shared fields; `single` carries a one-element list). -/
structure NormalizedParams : Type where
  mode : Mode
  model : Option String
  thinking : String
  items : List TaskWorkItem
  deriving DecidableEq, Repr

/-- Result type mirroring `{ ok: true; ... } | { ok: false; error: string }`. -/
inductive Res (α : Type) : Type where
  | ok : α → Res α
  | err : String → Res α
  deriving DecidableEq, Repr

/-- `parseProviderModel` from `task-params.ts`: trim, split at the first
slash; the slash must exist, not be the first character, and not be the last
character of the trimmed string. -/
def parseProviderModel (value : String) : Res ProviderModel :=
  let trimmed := jsTrim value
  let cs := trimmed.toList
  match cs.findIdx? (fun c => c = '/') with
  | none => .err ("Invalid model format: \"" ++ value ++ "\". Expected provider/modelId.")
  | some slashIndex =>
    if slashIndex = 0 ∨ slashIndex = cs.length - 1 then
      .err ("Invalid model format: \"" ++ value ++ "\". Expected provider/modelId.")
    else
      let provider := String.mk (cs.take slashIndex)
      let modelId := String.mk (cs.drop (slashIndex + 1))
      .ok { provider := provider, modelId := modelId, label := provider ++ "/" ++ modelId }

/-- The caller's current session model (`ctx.model`, projected to
`{ provider, id }`). -/
structure CtxModel : Type where
  provider : String
  id : String
  deriving DecidableEq, Repr

/-- `resolveModel` from `task-params.ts`. The `if (modelOverride)` truthiness
test is modelled by `optStrTruthy` (both `undefined` and `""` are falsy). -/
def resolveModel (modelOverride : Option String) (ctxModel : Option CtxModel) :
    Res (Option ProviderModel) :=
  if optStrTruthy modelOverride then
    match parseProviderModel (modelOverride.getD "") with
    | .err e => .err e
    | .ok m => .ok (some m)
  else
    match ctxModel with
    | none => .ok none
    | some m => .ok (some { provider := m.provider, modelId := m.id, label := m.provider ++ "/" ++ m.id })

/-- `normalizeModelInput` from `task-params.ts`. -/
def normalizeModelInput (value : Option JVal) (label : String) : Res (Option String) :=
  match value with
  | none => .ok none
  | some (.str s) =>
    let trimmed := jsTrim s
    .ok (if strTruthy trimmed then some trimmed else none)
  | some _ => .err ("Invalid parameters: " ++ label ++ " must be a string.")

/-- `normalizeThinkingInput` from `task-params.ts`. -/
def normalizeThinkingInput (value : Option JVal) (label : String) : Res (Option String) :=
  match value with
  | none => .ok none
  | some (.str s) =>
    let trimmed := jsTrim s
    if ¬ strTruthy trimmed then .ok none
    else if ¬ isTaskThinking trimmed then
      .err ("Invalid parameters: " ++ label ++ " must be one of " ++
        String.intercalate ", " VALID_THINKING_OPTIONS ++ ".")
    else .ok (some trimmed)
  | some _ => .err ("Invalid parameters: " ++ label ++ " must be a string.")

/-- `normalizeForkInput` from `task-params.ts` (`fork` defaults to `true`). -/
def normalizeForkInput (value : Option JVal) (label : String) : Res Bool :=
  match value with
  | none => .ok true
  | some (.bool b) => .ok b
  | some _ => .err ("Invalid parameters: " ++ label ++ " must be a boolean.")

/-- One iteration of the `parseTaskItems` loop of `task-params.ts` at entry
`taskEntry` (0-based index `index`). -/
def parseTaskItem (index : Nat) (taskEntry : JVal) : Res TaskWorkItem :=
  if ¬ isRecord taskEntry then .err "Invalid task item: expected an object."
  else
    let prompt := match taskEntry.getField "prompt" with
      | some (.str s) => jsTrim s
      | _ => ""
    let skill : Option String := match taskEntry.getField "skill" with
      | some (.str s) => some (jsTrim s)
      | _ => none
    if ¬ strTruthy prompt ∧ ¬ optStrTruthy skill then
      .err "Invalid task item: provide a non-empty \"prompt\" or \"skill\"."
    else
      let idxLabel := "\"tasks[" ++ toString index ++ "]"
      match normalizeModelInput (taskEntry.getField "model") (idxLabel ++ ".model\"") with
      | .err e => .err e
      | .ok model =>
      match normalizeThinkingInput (taskEntry.getField "thinking") (idxLabel ++ ".thinking\"") with
      | .err e => .err e
      | .ok thinking =>
      match normalizeForkInput (taskEntry.getField "fork") (idxLabel ++ ".fork\"") with
      | .err e => .err e
      | .ok fork =>
        .ok { prompt := prompt, skill := skill, model := model, thinking := thinking, fork := fork }

/-- `parseTaskItems` from `task-params.ts`: the first invalid entry
short-circuits; no partial collection of valid items is returned. -/
def parseTaskItems (rawTasks : List JVal) : Res (List TaskWorkItem) :=
  go 0 rawTasks
where
  go : Nat → List JVal → Res (List TaskWorkItem)
  | _, [] => .ok []
  | index, taskEntry :: rest =>
    match parseTaskItem index taskEntry with
    | .err e => .err e
    | .ok item =>
      match go (index + 1) rest with
      | .err e => .err e
      | .ok items => .ok (item :: items)

/-- The `rawTasks` extraction of `normalizeTaskParams`:
`Array.isArray(params.tasks) ? params.tasks : []`. -/
def rawTasksOf (params : JVal) : List JVal :=
  match params.getField "tasks" with
  | some (.arr xs) => xs
  | _ => []

/-- `normalizeTaskParams` from `task-params.ts`. -/
def normalizeTaskParams (params : JVal) (maxParallelTasks : Nat := MAX_PARALLEL_TASKS) :
    Res NormalizedParams :=
  if ¬ isRecord params then .err "Invalid parameters: expected an object."
  else
    match params.getField "type" with
    | some (.str mode) =>
      (match normalizeModelInput (params.getField "model") "\"model\"" with
       | .err e => .err e
       | .ok model =>
       match normalizeThinkingInput (params.getField "thinking") "\"thinking\"" with
       | .err e => .err e
       | .ok thinkingValue =>
         let thinking := thinkingValue.getD "inherit"
         let rawTasks := rawTasksOf params
         if mode = "single" then
           if rawTasks.length ≠ 1 then
             .err "Invalid parameters: type=\"single\" requires exactly one task in \"tasks\"."
           else match parseTaskItems rawTasks with
             | .err e => .err e
             | .ok items => .ok { mode := .single, model := model, thinking := thinking,
                                  items := items.take 1 }
         else if mode = "parallel" then
           if rawTasks.length = 0 then
             .err "Invalid parameters: type=\"parallel\" requires a non-empty \"tasks\" array."
           else if rawTasks.length > maxParallelTasks then
             .err ("Too many parallel tasks (" ++ toString rawTasks.length ++ "). Max is " ++
               toString maxParallelTasks ++ ".")
           else match parseTaskItems rawTasks with
             | .err e => .err e
             | .ok items => .ok { mode := .parallel, model := model, thinking := thinking, items := items }
         else if mode = "chain" then
           if rawTasks.length = 0 then
             .err "Invalid parameters: type=\"chain\" requires a non-empty \"tasks\" array."
           else if rawTasks.length > maxParallelTasks then
             .err ("Too many chain tasks (" ++ toString rawTasks.length ++ "). Max is " ++
               toString maxParallelTasks ++ ".")
           else match parseTaskItems rawTasks with
             | .err e => .err e
             | .ok items => .ok { mode := .chain, model := model, thinking := thinking, items := items }
         else .err "Invalid parameters: \"type\" must be \"single\", \"chain\", or \"parallel\".")
    | _ => .err "Invalid parameters: \"type\" must be a string."

/-! ### Configuration resolution (`task-config.ts`) -/

/-- `resolveThinkingLevel` from `task-config.ts`: `"inherit"` resolves to the
caller's currently active thinking level. -/
def resolveThinkingLevel (thinking : String) (inherited : String) : String :=
  if thinking = "inherit" then inherited else thinking

/-- `buildSubprocessArgs` from `task-config.ts`. -/
def buildSubprocessArgs (model : Option ProviderModel) (thinkingLevel : String)
    (builtInTools : List String) : List String :=
  ["--mode", "json", "-p", "--no-session", "--no-extensions"] ++
    (match model with
     | none => []
     | some m => ["--provider", m.provider, "--model", m.modelId]) ++
    ["--thinking", thinkingLevel] ++
    (if builtInTools.length = 0 then ["--no-tools"]
     else ["--tools", String.intercalate "," builtInTools])

/-- The `ok` payload of `resolveTaskConfig`. -/
structure ResolvedTaskConfig : Type where
  thinkingLevel : String
  subprocessArgs : List String
  modelLabel : Option String
  deriving DecidableEq, Repr

/-- `resolveTaskConfig` from `task-config.ts`. The model override used is
`item.model ?? defaultModel` (nullish coalescing). -/
def resolveTaskConfig (item : TaskWorkItem) (defaultModel : Option String)
    (defaultThinking : String) (inheritedThinking : String)
    (ctxModel : Option CtxModel) (builtInTools : List String) : Res ResolvedTaskConfig :=
  let modelOverride := item.model.orElse (fun _ => defaultModel)
  match resolveModel modelOverride ctxModel with
  | .err e => .err e
  | .ok model =>
    let thinking := resolveThinkingLevel ((item.thinking).getD defaultThinking) inheritedThinking
    .ok { thinkingLevel := thinking,
          subprocessArgs := buildSubprocessArgs model thinking builtInTools,
          modelLabel := model.map (·.label) }

/-! ### Core data model of the extension body -/

/-- `UsageStats`. All JavaScript numbers are modelled as rationals. -/
structure UsageStats : Type where
  input : ℚ
  output : ℚ
  cacheRead : ℚ
  cacheWrite : ℚ
  cost : ℚ
  contextTokens : ℚ
  turns : ℚ
  deriving DecidableEq, Repr

/-- The all-zero usage literal the source repeats at each result creation. -/
def zeroUsage : UsageStats :=
  { input := 0, output := 0, cacheRead := 0, cacheWrite := 0, cost := 0, contextTokens := 0, turns := 0 }

/-- One content part of a message. Only the distinction between text parts and
the rest matters to the verified claims. -/
inductive ContentPart : Type where
  | text : String → ContentPart
  | toolCall : String → ContentPart
  | other : ContentPart
  deriving DecidableEq, Repr

/-- A typed message from the subprocess event stream. Non-assistant roles
carry the same record shape with the assistant-only fields unused, matching
how the source only reads those fields behind a role check. -/
structure Message : Type where
  role : String
  content : List ContentPart
  model : Option String
  stopReason : Option String
  errorMessage : Option String
  deriving DecidableEq, Repr

/-- `SingleResult`. `exitCode` uses the source's sentinels:
`-2` pending, `-1` running, `0` success, `> 0` failure. -/
structure SingleResult : Type where
  prompt : String
  skill : Option String
  exitCode : Int
  messages : List Message
  stderr : String
  usage : UsageStats
  model : Option String
  thinking : Option String
  fork : Option Bool
  stopReason : Option String
  errorMessage : Option String
  index : Option Nat
  deriving DecidableEq, Repr

/-- The first text part of a message's content, if any (inner loop of
`getFinalOutput`). -/
def firstTextPart : List ContentPart → Option String
  | [] => none
  | .text t :: _ => some t
  | _ :: rest => firstTextPart rest

/-- `getFinalOutput`: walk the message log backwards; for the latest
assistant message that has a text part, return that first text part;
otherwise the empty string. -/
def getFinalOutput (messages : List Message) : String :=
  go messages.reverse
where
  go : List Message → String
  | [] => ""
  | message :: rest =>
    if message.role = "assistant" then
      match firstTextPart message.content with
      | some t => t
      | none => go rest
    else go rest

/-- `isTaskRunning`. -/
def isTaskRunning (result : SingleResult) : Bool := result.exitCode = -1

/-- `isTaskPending`. -/
def isTaskPending (result : SingleResult) : Bool := result.exitCode = -2

/-- `isTaskError`: failed iff positive exit code or a terminal stop reason of
`"error"` or `"aborted"`, regardless of exit code. -/
def isTaskError (result : SingleResult) : Bool :=
  result.exitCode > 0 ∨ result.stopReason = some "error" ∨ result.stopReason = some "aborted"

/-- Task status labels. -/
inductive TaskStatus : Type where
  | Running
  | Done
  | Failed
  | Pending
  deriving DecidableEq, Repr

/-- `getTaskStatus`. -/
def getTaskStatus (result : SingleResult) : TaskStatus :=
  if isTaskPending result then .Pending
  else if isTaskRunning result then .Running
  else if isTaskError result then .Failed
  else .Done

/-- The loop body of `aggregateUsage`: adds, for one task, its `input`,
`output`, `cacheRead`, `cacheWrite`, `cost` and `turns` fields to the
running total. (The source has no `+=` line for `contextTokens`.) -/
def addTaskUsage (total : UsageStats) (result : SingleResult) : UsageStats :=
  { total with
    input := total.input + result.usage.input,
    output := total.output + result.usage.output,
    cacheRead := total.cacheRead + result.usage.cacheRead,
    cacheWrite := total.cacheWrite + result.usage.cacheWrite,
    cost := total.cost + result.usage.cost,
    turns := total.turns + result.usage.turns }

/-- `aggregateUsage`: starts from the all-zero total and folds
`addTaskUsage` over the results. -/
def aggregateUsage (results : List SingleResult) : UsageStats :=
  results.foldl addTaskUsage zeroUsage

/-- First truthy string of a JavaScript `a || b` chain over strings, where
optional operands are `undefined`-or-string and the empty string is falsy. -/
def firstTruthy (candidates : List (Option String)) (fallback : String) : String :=
  match candidates with
  | [] => fallback
  | c :: rest => if optStrTruthy c then c.getD "" else firstTruthy rest fallback

/-- `getTaskErrorText`:
`result.errorMessage || result.stderr || getFinalOutput(result.messages) || "(no output)"`. -/
def getTaskErrorText (result : SingleResult) : String :=
  firstTruthy [result.errorMessage, some result.stderr, some (getFinalOutput result.messages)]
    "(no output)"

/-- `createPlaceholderResult` (default `exitCode = -1`, i.e. Running). -/
def createPlaceholderResult (item : TaskWorkItem) (index : Option Nat)
    (thinking : Option String) (model : Option String) (exitCode : Int := -1) : SingleResult :=
  { prompt := item.prompt, skill := item.skill, index := index, exitCode := exitCode,
    messages := [], stderr := "", usage := zeroUsage, model := model, thinking := thinking,
    fork := some item.fork, stopReason := none, errorMessage := none }

/-- The `close` handler of the subprocess in `runSingleTask`:
`exitCode` becomes `code ?? 0`, and if an abort had been signalled for this
task the stop reason is force-set to `"aborted"`. -/
def applyCloseEvent (result : SingleResult) (code : Option Int) (aborted : Bool) : SingleResult :=
  let result := { result with exitCode := code.getD 0 }
  if aborted then { result with stopReason := some "aborted" } else result

/-! ### Chain prompt substitution

`buildChainPrompt` is `prompt.replace(/\{previous\}/g, previousOutput)`.
JavaScript `String.prototype.replace` with a *string* replacement interprets
dollar patterns in the replacement (`$$`, `$&`, the backquote and quote forms
for the text before/after the match); the embedding reproduces that
(ECMA-262 `GetSubstitution`; the regex has no capture groups, so `$n` and
named-group references stay literal). -/

/-- The literal source pattern of the chain-substitution regex. -/
def chainToken : List Char := "{previous}".toList

/-- The dollar-before-match pattern character (backquote). -/
def dollarBefore : Char := Char.ofNat 96

/-- The dollar-after-match pattern character (single quote). -/
def dollarAfter : Char := Char.ofNat 39

/-- ECMA-262 `GetSubstitution` for a replacement template with no capture
groups: expand `$$`, `$&`, the backquote form (text of `orig` before the
match) and the quote form (text of `orig` after the match); any other
character, and any unrecognized dollar sequence, is copied literally. -/
def expandDollar (before matched after : List Char) : List Char → List Char
  | [] => []
  | '$' :: c :: rest =>
    if c = '$' then '$' :: expandDollar before matched after rest
    else if c = '&' then matched ++ expandDollar before matched after rest
    else if c = dollarBefore then before ++ expandDollar before matched after rest
    else if c = dollarAfter then after ++ expandDollar before matched after rest
    else '$' :: expandDollar before matched after (c :: rest)
  | c :: rest => c :: expandDollar before matched after rest

/-- Global string replacement of `chainToken`: scan the subject left to
right; at each occurrence substitute the expanded replacement and resume
after the occurrence (the inserted text is not rescanned), exactly as a
global regex replace does. `i` is the position of the remaining suffix `s`
inside the original subject `orig`. -/
def jsReplaceChain (repl orig : List Char) (i : Nat) (s : List Char) : List Char :=
  match s with
  | [] => []
  | c :: rest =>
    if chainToken.isPrefixOf (c :: rest) then
      expandDollar (orig.take i) chainToken (orig.drop (i + chainToken.length)) repl ++
        jsReplaceChain repl orig (i + chainToken.length) ((c :: rest).drop chainToken.length)
    else c :: jsReplaceChain repl orig (i + 1) rest
  termination_by s.length
  decreasing_by
    · simp only [List.length_drop, List.length_cons]
      have h10 : chainToken.length = 10 := by decide
      omega
    · simp

/-- `buildChainPrompt`: `prompt.replace(/\{previous\}/g, previousOutput)`. -/
def buildChainPrompt (prompt previousOutput : String) : String :=
  String.mk (jsReplaceChain previousOutput.toList prompt.toList 0 prompt.toList)

/-- `buildPendingPrompt`: the `{previous}` token rendered as an ellipsis. -/
def buildPendingPrompt (prompt : String) : String :=
  buildChainPrompt prompt "…"

/-! ### Event-stream parsing (`parseJsonLine` and the stdout buffering of
`runSingleTask`)

`JSON.parse` is a platform primitive, so the stream model is parameterized
by an arbitrary parse oracle `parse : List Char → Option JVal` (`none` plays
the role of a thrown `SyntaxError`). -/

/-- `!line.trim()`: the line is empty or all-whitespace. -/
def isBlankLine (line : List Char) : Bool := line.all Char.isWhitespace

/-- `parseJsonLine`: blank lines and parse failures yield `undefined`, and a
successfully parsed value is kept only if it `isRecord`. -/
def parseJsonLine (parse : List Char → Option JVal) (line : List Char) : Option JVal :=
  if isBlankLine line then none
  else
    match parse line with
    | none => none
    | some parsed => if isRecord parsed then some parsed else none

/-- `isMessage`: a record whose `role` is `assistant`, `user` or
`toolResult`. -/
def isMessageJ : Option JVal → Bool
  | none => false
  | some v =>
    isRecord v &&
      match v.getField "role" with
      | some (.str role) => role = "assistant" ∨ role = "user" ∨ role = "toolResult"
      | _ => false

/-- The `typeText` extraction of `processLine`:
`typeof event.type === "string" ? event.type : ""`. -/
def eventTypeText (event : JVal) : String :=
  match event.getField "type" with
  | some (.str s) => s
  | _ => ""

/-- `processLine` of `runSingleTask`, as a pure classifier: the accepted
message of a line, if any. A line is accepted when it parses to a record
whose `type` is `"message_end"` or `"tool_result_end"` and whose `message`
field satisfies `isMessage`. -/
def lineEvent (parse : List Char → Option JVal) (line : List Char) : Option JVal :=
  match parseJsonLine parse line with
  | none => none
  | some event =>
    if (eventTypeText event = "message_end" ∨ eventTypeText event = "tool_result_end") ∧
        isMessageJ (event.getField "message") then
      event.getField "message"
    else none

/-- `buffer.split("\n")` on character lists (`splitNl [] = [[]]`, matching
`"".split("\n") === [""]`). -/
def splitNl : List Char → List (List Char)
  | [] => [[]]
  | c :: cs =>
    if c = '\n' then [] :: splitNl cs
    else
      match splitNl cs with
      | [] => [[c]]
      | l :: ls => (c :: l) :: ls

/-- The mutable state of the stdout handler: the unterminated tail kept in
`buffer` and the accepted messages so far. -/
structure StreamState : Type where
  buffer : List Char
  events : List JVal

/-- The `data` handler: append the chunk to the buffer, split on newlines,
keep the last (unterminated) piece as the new buffer and process every
complete line in order. -/
def streamData (parse : List Char → Option JVal) (st : StreamState) (data : List Char) :
    StreamState :=
  let lines := splitNl (st.buffer ++ data)
  { buffer := lines.getLastD [],
    events := st.events ++ lines.dropLast.filterMap (lineEvent parse) }

/-- The `close` handler's parsing step: any non-blank trailing buffered text
is processed as one final line. -/
def streamClose (parse : List Char → Option JVal) (st : StreamState) : StreamState :=
  if isBlankLine st.buffer then st
  else { st with events := st.events ++ (lineEvent parse st.buffer).toList }

/-- Initial stream state. -/
def initStream : StreamState := { buffer := [], events := [] }

/-- The accepted messages produced by feeding `chunks` to the stdout handler
and then closing the process. -/
def runStream (parse : List Char → Option JVal) (chunks : List (List Char)) : List JVal :=
  (streamClose parse (chunks.foldl (streamData parse) initStream)).events

/-! ### The concurrency-limited scheduler (`mapWithConcurrencyLimit`)

The source runs `limit = max(1, min(concurrency, items.length))` recursive
workers over a shared `nextIndex` counter on the single-threaded JavaScript
event loop. Each worker's claim (`currentIndex = nextIndex; nextIndex += 1`)
is a synchronous block, and the only suspension point is the `await` of the
per-item task function, so the behaviour is modelled as a transition system:
a `claim` step is one worker's synchronous claim block, and a `complete`
step is the task function of a running worker finishing (in arbitrary
order). -/

/-- `max(1, min(concurrency, items.length))`. -/
def limitOf (concurrency n : Nat) : Nat := max 1 (min concurrency n)

/-- The control point of one worker of the pool. -/
inductive WorkerState : Type where
  | idle
  | running : Nat → WorkerState
  | done
  deriving DecidableEq, Repr

/-- A worker is between its claim and the completion of its task function. -/
def isRunningW : WorkerState → Bool
  | .running _ => true
  | _ => false

/-- The shared state of one `mapWithConcurrencyLimit` call. -/
structure SchedState (β : Type) : Type where
  next : Nat
  workers : List WorkerState
  res : List (Option β)
  started : List Nat

/-- Initial state: `nextIndex = 0`, `limit` workers about to run, an
unpopulated result array, and no item started yet. -/
def initSched (β : Type) (concurrency : Nat) {α : Type} (items : List α) : SchedState β :=
  { next := 0,
    workers := List.replicate (limitOf concurrency items.length) .idle,
    res := List.replicate items.length none,
    started := [] }

/-- One interleaving step of the worker pool. `fn item index` is the value
the per-item task function settles with. -/
inductive SchedStep {α β : Type} (items : List α) (fn : α → Nat → β) :
    SchedState β → SchedState β → Prop where
  | claim (s : SchedState β) (w : Nat) (h : s.workers[w]? = some .idle) :
      SchedStep items fn s
        { next := s.next + 1,
          workers := s.workers.set w
            (if s.next < items.length then .running s.next else .done),
          res := s.res,
          started := if s.next < items.length then s.started ++ [s.next] else s.started }
  | complete (s : SchedState β) (w i : Nat) (hw : s.workers[w]? = some (.running i))
      (hi : i < items.length) :
      SchedStep items fn s
        { s with
          workers := s.workers.set w .idle,
          res := s.res.set i (some (fn (items.get ⟨i, hi⟩) i)) }

/-- Reachable states of one `mapWithConcurrencyLimit` call. -/
inductive SchedReach {α β : Type} (concurrency : Nat) (items : List α) (fn : α → Nat → β) :
    SchedState β → Prop where
  | init : SchedReach concurrency items fn (initSched β concurrency items)
  | step {s s' : SchedState β} : SchedReach concurrency items fn s → SchedStep items fn s s' →
      SchedReach concurrency items fn s'

/-- How many task functions are in flight. -/
def runningCount {β : Type} (s : SchedState β) : Nat := s.workers.countP isRunningW

/-- The call has returned: every worker has run out of work. -/
def terminalSched {β : Type} (s : SchedState β) : Prop := ∀ w ∈ s.workers, w = .done

/-! ### The chain-mode orchestration loop of `execute`

The collaborators that are external to the loop are passed as oracles:
`buildP` models `buildSubprocessPrompt` applied to the call's skill state,
and `runner` models `runSingleTask` (0-based step index, substituted step
item, prepared prompt ↦ the step's final `SingleResult`). Configuration
resolution uses the embedded `resolveTaskConfig` directly, as the loop
does. -/

/-- A prepared execution (`PreparedExecution`): work item, prepared
subprocess prompt and resolved configuration. -/
structure PreparedExecution : Type where
  item : TaskWorkItem
  subprocessPrompt : String
  config : ResolvedTaskConfig
  deriving DecidableEq, Repr

/-- What the chain branch of `execute` returns: the text of the single
content block, the `details.results` array, the `isError` flag (absent,
i.e. `false`, except for the fail-fast return) and, for the embedding, the
log of 1-based step numbers whose subprocess run was invoked. -/
structure ChainOutcome : Type where
  content : String
  results : List SingleResult
  isError : Bool
  attempted : List Nat
  deriving DecidableEq, Repr

/-- Junk default used to model the (never reached on normalized input)
out-of-bounds read `results[results.length - 1]` of an empty chain. -/
def emptySingleResult : SingleResult :=
  { prompt := "", skill := none, exitCode := 0, messages := [], stderr := "", usage := zeroUsage,
    model := none, thinking := none, fork := none, stopReason := none, errorMessage := none,
    index := none }

/-- The chain loop body of `execute`, iterating over the remaining items.
`idx` is the current 0-based step, `previousOutput` the final text output of
the previous step (empty for step 1), `results` the full results array, and
`attempted` the run log. -/
def chainGo (defaultModel : Option String) (defaultThinking inheritedThinking : String)
    (ctxModel : Option CtxModel) (builtInTools : List String)
    (buildP : TaskWorkItem → Res String)
    (runner : Nat → TaskWorkItem → String → SingleResult) :
    Nat → String → List SingleResult → List Nat → List TaskWorkItem → ChainOutcome
  | _, _, results, attempted, [] =>
    let last := results.getLastD emptySingleResult
    let text := getFinalOutput last.messages
    { content := if strTruthy text then text else "(no output)",
      results := results, isError := false, attempted := attempted }
  | idx, previousOutput, results, attempted, item :: rest =>
    let prompt := buildChainPrompt item.prompt previousOutput
    let stepItem := { item with prompt := prompt }
    match resolveTaskConfig item defaultModel defaultThinking inheritedThinking ctxModel
        builtInTools with
    | .err e => { content := e, results := results, isError := false, attempted := attempted }
    | .ok config =>
      match buildP stepItem with
      | .err e => { content := e, results := results, isError := false, attempted := attempted }
      | .ok preparedPrompt =>
        let results := results.set idx
          (createPlaceholderResult stepItem (some (idx + 1)) (some config.thinkingLevel)
            config.modelLabel)
        let result := runner idx stepItem preparedPrompt
        let results := results.set idx result
        let attempted := attempted ++ [idx + 1]
        if isTaskError result then
          { content := "Chain stopped at step " ++ toString (idx + 1) ++ ": " ++
              getTaskErrorText result,
            results := results, isError := true, attempted := attempted }
        else
          chainGo defaultModel defaultThinking inheritedThinking ctxModel builtInTools buildP
            runner (idx + 1) (getFinalOutput result.messages) results attempted rest

/-- The chain branch of `execute`: build the all-pending placeholder array
(each step's prompt shown with `{previous}` rendered as an ellipsis,
`exitCode = -2`), then run the loop from step 1 with empty previous
output. -/
def chainExec (items : List TaskWorkItem) (defaultModel : Option String)
    (defaultThinking inheritedThinking : String) (ctxModel : Option CtxModel)
    (builtInTools : List String) (buildP : TaskWorkItem → Res String)
    (runner : Nat → TaskWorkItem → String → SingleResult) : ChainOutcome :=
  let placeholders := items.mapIdx (fun index item =>
    createPlaceholderResult { item with prompt := buildPendingPrompt item.prompt }
      (some (index + 1)) none none (-2))
  chainGo defaultModel defaultThinking inheritedThinking ctxModel builtInTools buildP runner
    0 "" placeholders [] items

/-! ### Parallel-mode placeholders and progress counting -/

/-- The `allResults` array the parallel branch creates before scheduling:
one placeholder per prepared execution, with the default `exitCode = -1`. -/
def parallelPlaceholders (executions : List PreparedExecution) : List SingleResult :=
  executions.mapIdx (fun index execution =>
    createPlaceholderResult execution.item (some (index + 1))
      (some execution.config.thinkingLevel) execution.config.modelLabel)

/-- The `running` count of `emitParallelUpdate`:
`allResults.filter((result) => result.exitCode === -1).length`. -/
def shownRunningCount (results : List SingleResult) : Nat :=
  (results.filter (fun result => result.exitCode = -1)).length

/-- The `done` count of `emitParallelUpdate`:
`allResults.filter((result) => result.exitCode !== -1).length`. -/
def shownDoneCount (results : List SingleResult) : Nat :=
  (results.filter (fun result => result.exitCode ≠ -1)).length

/-! ### The pre-dispatch prefix of `execute`

Everything `execute` does before branching on the mode: parameter
normalization (with the skill list appended to a normalization error) and
the fork prerequisite check. The three mode orchestrators are abstracted as
a `dispatch` continuation that also reports which subprocesses it spawned,
so properties proved for every `dispatch` hold for the real orchestrators in
particular. -/

/-- `formatAvailableSkills`: up to `maxItems` entries `name (source)` plus
the count of the rest. -/
def formatAvailableSkills (skills : List (String × String)) (maxItems : Nat) : String × Nat :=
  if skills.length = 0 then ("none", 0)
  else
    let listed := skills.take maxItems
    (String.intercalate ", " (listed.map (fun skill => skill.1 ++ " (" ++ skill.2 ++ ")")),
      skills.length - listed.length)

/-- A tool response: the text of the single content block, the
`details.results` array and the `isError` flag. -/
structure ToolResponse : Type where
  text : String
  results : List SingleResult
  isError : Bool
  deriving DecidableEq, Repr

/-- The fork prerequisite error text of `execute`. -/
def forkErrorText : String :=
  "Forked tasks require a persisted session file. Set fork: false or start pi with sessions enabled."

/-- The prefix of `execute` up to mode dispatch. `sessionFileEnv` models
`ctx.sessionManager.getSessionFile()`; `dispatch` abstracts the three mode
orchestrators and returns the response together with the log of spawned
subprocesses. -/
def executePrefix (params : JVal) (maxParallelTasks skillListLimit : Nat)
    (skills : List (String × String)) (sessionFileEnv : Option String)
    (dispatch : NormalizedParams → Option String → ToolResponse × List Nat) :
    ToolResponse × List Nat :=
  match normalizeTaskParams params maxParallelTasks with
  | .err e =>
    let available := formatAvailableSkills skills skillListLimit
    let suffix := if available.2 > 0 then ", ... +" ++ toString available.2 ++ " more" else ""
    ({ text := e ++ "\nAvailable skills: " ++ available.1 ++ suffix, results := [],
       isError := false }, [])
  | .ok normalized =>
    let requiresFork := normalized.items.any (·.fork)
    let sessionFile := if requiresFork then sessionFileEnv else none
    if requiresFork ∧ sessionFile = none then
      ({ text := forkErrorText, results := [], isError := false }, [])
    else dispatch normalized sessionFile

/-! ### Specification-side definition for the model-format claim -/

/-- Modelled from the spec's words (for the refinement comparison of claim
C4): a provided model string "must match `provider/modelId` with both sides
non-empty" — after trimming, the string decomposes as a slash-free non-empty
provider, a slash, and a non-empty model id. -/
def specValidModelShape (s : String) : Prop :=
  ∃ p m : List Char, p ≠ [] ∧ m ≠ [] ∧ '/' ∉ p ∧  (jsTrim s).toList = p ++ '/' :: m

/-! ### Concrete chain fixtures

Inputs for exercising the chain-mode theorems on a concrete 3-step chain:
one where the subprocess run of step 2 exits non-zero, and one where step 2
carries a skill that fails to resolve. -/

/-- A bare work item with the given prompt and skill and no overrides. -/
def plainItem (prompt : String) (skill : Option String) : TaskWorkItem :=
  { prompt := prompt, skill := skill, model := none, thinking := none, fork := true }

/-- Three chain steps whose configuration and skill all resolve. -/
def chainDemoItems : List TaskWorkItem :=
  [plainItem "find X" none, plainItem "summarize: {previous}" none, plainItem "report" none]

/-- Three chain steps where step 2 names a skill that will not resolve. -/
def chainDemoItemsB : List TaskWorkItem :=
  [plainItem "find X" none, plainItem "use {previous}" (some "missing"), plainItem "report" none]

/-- A subprocess-run oracle: every run settles with one assistant text
message echoing the prompt, and only step 2 (0-based index 1) exits
non-zero. -/
def chainDemoRunner (j : Nat) (item : TaskWorkItem) (p : String) : SingleResult :=
  { prompt := item.prompt, skill := item.skill,
    exitCode := if j = 1 then 1 else 0,
    messages := [{ role := "assistant", content := [.text p], model := none,
                   stopReason := none, errorMessage := none }],
    stderr := "", usage := zeroUsage, model := none, thinking := none,
    fork := some item.fork, stopReason := none, errorMessage := none,
    index := some (j + 1) }

/-- A prompt-preparation oracle that fails exactly on the unresolvable
skill. -/
def chainDemoBuildP (item : TaskWorkItem) : Res String :=
  if item.skill = some "missing" then .err "Skill not found: missing" else .ok item.prompt

/-! ## Theorems -/

/-- Unfolding the fold of `aggregateUsage` from an arbitrary running
total. -/
theorem aggregate_foldl (rs : List SingleResult) (acc : UsageStats) :
    rs.foldl addTaskUsage acc =
      { input := acc.input + (rs.map (fun r => r.usage.input)).sum,
        output := acc.output + (rs.map (fun r => r.usage.output)).sum,
        cacheRead := acc.cacheRead + (rs.map (fun r => r.usage.cacheRead)).sum,
        cacheWrite := acc.cacheWrite + (rs.map (fun r => r.usage.cacheWrite)).sum,
        cost := acc.cost + (rs.map (fun r => r.usage.cost)).sum,
        contextTokens := acc.contextTokens,
        turns := acc.turns + (rs.map (fun r => r.usage.turns)).sum } := by
  induction rs generalizing acc with
  | nil => simp
  | cons r rest ih =>
    simp only [List.foldl_cons, List.map_cons, List.sum_cons, ih, addTaskUsage]
    simp only [UsageStats.mk.injEq]
    refine ⟨?_, ?_, ?_, ?_, ?_, ?_, ?_⟩ <;> ring_nf

/-- Claim C3, counterexample: the claim says the aggregate is the field-wise
sum over all fields of `UsageStats` including `contextTokens`, but
aggregating one task whose `contextTokens` is 5 yields an aggregate
`contextTokens` of 0, not 5. -/
theorem c3_counterexample :
    (aggregateUsage
        [{ emptySingleResult with usage := { zeroUsage with contextTokens := 5 } }]).contextTokens
        = 0 ∧
      ([{ emptySingleResult with usage := { zeroUsage with contextTokens := 5 } }].map
          (fun r => r.usage.contextTokens)).sum = 5 := by
  constructor <;> simp [aggregateUsage, addTaskUsage, zeroUsage]

/-- Claim C3, amended: for every list of task results, the aggregated
`UsageStats` is the field-wise sum of the tasks' usage over the fields
`input`, `output`, `cacheRead`, `cacheWrite`, `cost` and `turns`, while the
aggregate's `contextTokens` is always 0 (the source never adds it);
aggregating the empty list yields all-zero stats. -/
theorem c3_aggregate_fieldwise (results : List SingleResult) :
    aggregateUsage results =
      { input := (results.map (fun r => r.usage.input)).sum,
        output := (results.map (fun r => r.usage.output)).sum,
        cacheRead := (results.map (fun r => r.usage.cacheRead)).sum,
        cacheWrite := (results.map (fun r => r.usage.cacheWrite)).sum,
        cost := (results.map (fun r => r.usage.cost)).sum,
        contextTokens := 0,
        turns := (results.map (fun r => r.usage.turns)).sum } ∧
      aggregateUsage [] = zeroUsage := by
  refine ⟨?_, rfl⟩
  simp [aggregateUsage, aggregate_foldl, zeroUsage]

/-- Claim C5: evaluation of the embedded `buildChainPrompt` at the failing
input. The claim (and the spec) say every `{previous}` occurrence is
replaced by the *literal* previous output, but the source uses JavaScript
`String.prototype.replace` with a string replacement, which expands dollar
patterns: a previous output of `"$$"` is inserted as `"$"`, and `"$&"`
re-inserts the matched token. The spec's own dollar-free example is also
checked to behave as documented. -/
theorem c5_dollar_expansion :
    buildChainPrompt "summarize: {previous}" "$$" = "summarize: $" ∧
      buildChainPrompt "summarize: {previous}" "$&" = "summarize: {previous}" ∧
      buildChainPrompt "summarize: {previous}" "X is here" = "summarize: X is here" := by
  refine ⟨?_, ?_, ?_⟩ <;> simp [buildChainPrompt, jsReplaceChain, expandDollar, chainToken]

/-- Claim C7: when an abort was signalled before the process closed, the
close handler force-sets the stop reason to `"aborted"` even if the exit
code is 0, the result classifies as an error, and its task status is
`Failed`; moreover any result whose stop reason is `"aborted"` or `"error"`
classifies as an error regardless of exit code. (Process exit codes reported
by a close event are non-negative; `null` is modelled as `none`.) -/
theorem c7_abort_forces_failed :
    (∀ (result : SingleResult) (code : Option Int), (∀ c ∈ code, 0 ≤ c) →
        (applyCloseEvent result code true).stopReason = some "aborted" ∧
          isTaskError (applyCloseEvent result code true) = true ∧
          getTaskStatus (applyCloseEvent result code true) = .Failed) ∧
      ∀ result : SingleResult,
        result.stopReason = some "aborted" ∨ result.stopReason = some "error" →
          isTaskError result = true := by
  constructor
  · intro result code hcode
    have h0 : 0 ≤ code.getD 0 := by
      cases code with
      | none => simp
      | some c => exact hcode c rfl
    refine ⟨rfl, ?_, ?_⟩
    · simp [applyCloseEvent, isTaskError]
    · simp only [applyCloseEvent, getTaskStatus, isTaskPending, isTaskRunning, isTaskError]
      have h1 : code.getD 0 ≠ -2 := by omega
      have h2 : code.getD 0 ≠ -1 := by omega
      simp [h1, h2]
  · intro result h
    rcases h with h | h <;> simp [isTaskError, h]

/-- Claim C7, witness: a concretely aborted task whose process exited 0. -/
theorem c7_abort_forces_failed_witness :
    (applyCloseEvent emptySingleResult (some 0) true).stopReason = some "aborted" ∧
      isTaskError (applyCloseEvent emptySingleResult (some 0) true) = true ∧
      getTaskStatus (applyCloseEvent emptySingleResult (some 0) true) = .Failed :=
  c7_abort_forces_failed.1 emptySingleResult (some 0)
    (by intro c hc; rw [Option.mem_def] at hc; cases hc; omega)

/-- Claim C8: if normalization succeeds, some item requests a fork, and no
persisted session log path is available, `execute` returns the fork
prerequisite error before reaching the mode dispatch — for *every* possible
dispatch (hence in every mode), and with an empty spawn log. -/
theorem c8_fork_prerequisite (params : JVal) (maxParallelTasks skillListLimit : Nat)
    (skills : List (String × String))
    (dispatch : NormalizedParams → Option String → ToolResponse × List Nat)
    (n : NormalizedParams)
    (hn : normalizeTaskParams params maxParallelTasks = .ok n)
    (hfork : n.items.any (fun item => item.fork) = true) :
    executePrefix params maxParallelTasks skillListLimit skills none dispatch =
      ({ text := forkErrorText, results := [], isError := false }, []) := by
  unfold executePrefix
  rw [hn]
  simp [hfork]

/-- Claim C8, witness: a single-mode request whose one task forks by
default, with a dispatch that would report a spawn if it were reached. -/
theorem c8_fork_prerequisite_witness :
    executePrefix
        (JVal.obj [("type", .str "single"), ("tasks", .arr [.obj [("prompt", .str "Hi")]])])
        8 30 [] none
        (fun _ _ => ({ text := "dispatched", results := [], isError := false }, [99])) =
      ({ text := forkErrorText, results := [], isError := false }, []) :=
  c8_fork_prerequisite _ 8 30 []
    (fun _ _ => ({ text := "dispatched", results := [], isError := false }, [99]))
    { mode := .single, model := none, thinking := "inherit",
      items := [{ prompt := "Hi", skill := none, model := none, thinking := none, fork := true }] }
    (by decide) (by decide)

/-- Successful normalization threads the top-level `model` and `thinking`
fields through `normalizeModelInput` and `normalizeThinkingInput`, the
latter defaulted to `"inherit"`. -/
theorem normalizeTaskParams_ok_fields (params : JVal) (mpt : Nat) (n : NormalizedParams)
    (h : normalizeTaskParams params mpt = .ok n) :
    ∃ mv tv, normalizeModelInput (params.getField "model") "\"model\"" = .ok mv ∧
      normalizeThinkingInput (params.getField "thinking") "\"thinking\"" = .ok tv ∧
      n.model = mv ∧ n.thinking = tv.getD "inherit" := by
  unfold normalizeTaskParams at h
  simp only [] at h
  iterate 10 (all_goals try split at h)
  all_goals first
    | exact Res.noConfusion h
    | (injection h with h2; subst h2; exact ⟨_, _, by assumption, by assumption, rfl, rfl⟩)

/-- Successful parsing of one task entry threads its `model`, `thinking` and
`fork` fields through the three input normalizers. -/
theorem parseTaskItem_ok_fields (index : Nat) (entry : JVal) (item : TaskWorkItem)
    (h : parseTaskItem index entry = .ok item) :
    ∃ mv tv fv,
      normalizeModelInput (entry.getField "model")
          ("\"tasks[" ++ toString index ++ "]" ++ ".model\"") = .ok mv ∧
        normalizeThinkingInput (entry.getField "thinking")
          ("\"tasks[" ++ toString index ++ "]" ++ ".thinking\"") = .ok tv ∧
        normalizeForkInput (entry.getField "fork")
          ("\"tasks[" ++ toString index ++ "]" ++ ".fork\"") = .ok fv ∧
        item.model = mv ∧ item.thinking = tv ∧ item.fork = fv := by
  unfold parseTaskItem at h
  simp only [] at h
  iterate 10 (all_goals try split at h)
  all_goals first
    | exact Res.noConfusion h
    | (injection h with h2; subst h2;
       exact ⟨_, _, _, by assumption, by assumption, by assumption, rfl, rfl, rfl⟩)

/-- Claim C10: a `model` or `thinking` field whose provided value is a
whitespace-only (or empty) string is normalized to an absent value — no
error, no recorded override — both at the top level of a request (where the
absent thinking then defaults to `"inherit"`, i.e. no override) and per task
item. -/
theorem c10_blank_overrides_absent :
    ∀ s label : String, jsTrim s = "" →
      (normalizeModelInput (some (.str s)) label = .ok none ∧
        normalizeThinkingInput (some (.str s)) label = .ok none) ∧
      (∀ (params : JVal) (mpt : Nat) (n : NormalizedParams),
        params.getField "model" = some (.str s) →
        normalizeTaskParams params mpt = .ok n → n.model = none) ∧
      (∀ (params : JVal) (mpt : Nat) (n : NormalizedParams),
        params.getField "thinking" = some (.str s) →
        normalizeTaskParams params mpt = .ok n → n.thinking = "inherit") ∧
      (∀ (index : Nat) (entry : JVal) (item : TaskWorkItem),
        entry.getField "model" = some (.str s) →
        parseTaskItem index entry = .ok item → item.model = none) ∧
      (∀ (index : Nat) (entry : JVal) (item : TaskWorkItem),
        entry.getField "thinking" = some (.str s) →
        parseTaskItem index entry = .ok item → item.thinking = none) := by
  intro s label hs
  have hm : ∀ lbl, normalizeModelInput (some (.str s)) lbl = .ok none := by
    intro lbl
    simp [normalizeModelInput, hs, strTruthy]
  have ht : ∀ lbl, normalizeThinkingInput (some (.str s)) lbl = .ok none := by
    intro lbl
    simp [normalizeThinkingInput, hs, strTruthy]
  refine ⟨⟨hm label, ht label⟩, ?_, ?_, ?_, ?_⟩
  · intro params mpt n hf hn
    obtain ⟨mv, tv, hmv, htv, hnm, _⟩ := normalizeTaskParams_ok_fields params mpt n hn
    rw [hf, hm] at hmv
    injection hmv with hmv2
    rw [hnm, ← hmv2]
  · intro params mpt n hf hn
    obtain ⟨mv, tv, hmv, htv, _, hnt⟩ := normalizeTaskParams_ok_fields params mpt n hn
    rw [hf, ht] at htv
    injection htv with htv2
    rw [hnt, ← htv2]
    rfl
  · intro index entry item hf hi
    obtain ⟨mv, tv, fv, hmv, htv, hfv, him, _, _⟩ := parseTaskItem_ok_fields index entry item hi
    rw [hf, hm] at hmv
    injection hmv with hmv2
    rw [him, ← hmv2]
  · intro index entry item hf hi
    obtain ⟨mv, tv, fv, hmv, htv, hfv, _, hit, _⟩ := parseTaskItem_ok_fields index entry item hi
    rw [hf, ht] at htv
    injection htv with htv2
    rw [hit, ← htv2]

/-- Claim C10, witness: whitespace-only `model`/`thinking` strings at every
position of a concrete request normalize to absent values without error. -/
theorem c10_blank_overrides_absent_witness :
    (normalizeModelInput (some (.str "   ")) "\"model\"" = .ok none ∧
      normalizeThinkingInput (some (.str "   ")) "\"model\"" = .ok none) ∧
      ({ mode := Mode.single, model := none, thinking := "inherit",
         items := [{ prompt := "Hi", skill := none, model := none, thinking := none,
                     fork := true }] } : NormalizedParams).model = none ∧
      ({ mode := Mode.single, model := none, thinking := "inherit",
         items := [{ prompt := "Hi", skill := none, model := none, thinking := none,
                     fork := true }] } : NormalizedParams).thinking = "inherit" ∧
      ({ prompt := "Hi", skill := none, model := none, thinking := none,
         fork := true } : TaskWorkItem).model = none ∧
      ({ prompt := "Hi", skill := none, model := none, thinking := none,
         fork := true } : TaskWorkItem).thinking = none := by
  have h := c10_blank_overrides_absent "   " "\"model\"" (by decide)
  refine ⟨h.1, ?_, ?_, ?_, ?_⟩
  · exact h.2.1
      (.obj [("type", .str "single"), ("model", .str "   "),
        ("tasks", .arr [.obj [("prompt", .str "Hi")]])]) 8 _ (by rfl) (by decide)
  · exact h.2.2.1
      (.obj [("type", .str "single"), ("thinking", .str "   "),
        ("tasks", .arr [.obj [("prompt", .str "Hi")]])]) 8 _ (by rfl) (by decide)
  · exact h.2.2.2.1 0 (.obj [("prompt", .str "Hi"), ("model", .str "   ")]) _
      (by rfl) (by decide)
  · exact h.2.2.2.2 0 (.obj [("prompt", .str "Hi"), ("thinking", .str "   ")]) _
      (by rfl) (by decide)

/-- Claim C9: normalization rejects single requests whose task count is not
exactly 1 and chain/parallel requests whose task count lies outside
`[1, maxParallelTasks]`; each violation produces the corresponding error
(the upper-bound messages carry the offending count and the limit), and a
normalization failure makes `execute` return before the mode dispatch, so no
subprocess is spawned. -/
theorem c9_task_count_bounds :
    (∀ (params : JVal) (mpt : Nat),
        isRecord params = true →
        params.getField "type" = some (.str "single") →
        (∃ mv, normalizeModelInput (params.getField "model") "\"model\"" = .ok mv) →
        (∃ tv, normalizeThinkingInput (params.getField "thinking") "\"thinking\"" = .ok tv) →
        (rawTasksOf params).length ≠ 1 →
        normalizeTaskParams params mpt =
          .err "Invalid parameters: type=\"single\" requires exactly one task in \"tasks\".") ∧
      (∀ (params : JVal) (mpt : Nat),
        isRecord params = true →
        params.getField "type" = some (.str "parallel") →
        (∃ mv, normalizeModelInput (params.getField "model") "\"model\"" = .ok mv) →
        (∃ tv, normalizeThinkingInput (params.getField "thinking") "\"thinking\"" = .ok tv) →
        (rawTasksOf params).length = 0 →
        normalizeTaskParams params mpt =
          .err "Invalid parameters: type=\"parallel\" requires a non-empty \"tasks\" array.") ∧
      (∀ (params : JVal) (mpt : Nat),
        isRecord params = true →
        params.getField "type" = some (.str "parallel") →
        (∃ mv, normalizeModelInput (params.getField "model") "\"model\"" = .ok mv) →
        (∃ tv, normalizeThinkingInput (params.getField "thinking") "\"thinking\"" = .ok tv) →
        (rawTasksOf params).length > mpt →
        normalizeTaskParams params mpt =
          .err ("Too many parallel tasks (" ++ toString (rawTasksOf params).length ++
            "). Max is " ++ toString mpt ++ ".")) ∧
      (∀ (params : JVal) (mpt : Nat),
        isRecord params = true →
        params.getField "type" = some (.str "chain") →
        (∃ mv, normalizeModelInput (params.getField "model") "\"model\"" = .ok mv) →
        (∃ tv, normalizeThinkingInput (params.getField "thinking") "\"thinking\"" = .ok tv) →
        (rawTasksOf params).length = 0 →
        normalizeTaskParams params mpt =
          .err "Invalid parameters: type=\"chain\" requires a non-empty \"tasks\" array.") ∧
      (∀ (params : JVal) (mpt : Nat),
        isRecord params = true →
        params.getField "type" = some (.str "chain") →
        (∃ mv, normalizeModelInput (params.getField "model") "\"model\"" = .ok mv) →
        (∃ tv, normalizeThinkingInput (params.getField "thinking") "\"thinking\"" = .ok tv) →
        (rawTasksOf params).length > mpt →
        normalizeTaskParams params mpt =
          .err ("Too many chain tasks (" ++ toString (rawTasksOf params).length ++
            "). Max is " ++ toString mpt ++ ".")) ∧
      ∀ (params : JVal) (mpt skillListLimit : Nat) (skills : List (String × String))
        (sessionFileEnv : Option String)
        (dispatch : NormalizedParams → Option String → ToolResponse × List Nat) (e : String),
        normalizeTaskParams params mpt = .err e →
        executePrefix params mpt skillListLimit skills sessionFileEnv dispatch =
          ({ text := e ++ "\nAvailable skills: " ++
               (formatAvailableSkills skills skillListLimit).1 ++
               (if (formatAvailableSkills skills skillListLimit).2 > 0 then
                 ", ... +" ++ toString (formatAvailableSkills skills skillListLimit).2 ++ " more"
                else ""),
             results := [], isError := false }, []) := by
  refine ⟨?_, ?_, ?_, ?_, ?_, ?_⟩
  · intro params mpt hrec htype hmv htv hlen
    obtain ⟨mv, hmv⟩ := hmv
    obtain ⟨tv, htv⟩ := htv
    simp [normalizeTaskParams, hrec, htype, hmv, htv, hlen]
  · intro params mpt hrec htype hmv htv hlen
    obtain ⟨mv, hmv⟩ := hmv
    obtain ⟨tv, htv⟩ := htv
    simp [normalizeTaskParams, hrec, htype, hmv, htv, hlen]
  · intro params mpt hrec htype hmv htv hlen
    obtain ⟨mv, hmv⟩ := hmv
    obtain ⟨tv, htv⟩ := htv
    have h0 : (rawTasksOf params).length ≠ 0 := by omega
    simp [normalizeTaskParams, hrec, htype, hmv, htv, h0, hlen]
  · intro params mpt hrec htype hmv htv hlen
    obtain ⟨mv, hmv⟩ := hmv
    obtain ⟨tv, htv⟩ := htv
    simp [normalizeTaskParams, hrec, htype, hmv, htv, hlen]
  · intro params mpt hrec htype hmv htv hlen
    obtain ⟨mv, hmv⟩ := hmv
    obtain ⟨tv, htv⟩ := htv
    have h0 : (rawTasksOf params).length ≠ 0 := by omega
    simp [normalizeTaskParams, hrec, htype, hmv, htv, h0, hlen]
  · intro params mpt skillListLimit skills sessionFileEnv dispatch e he
    simp [executePrefix, he]

/-- Claim C9, witness: each bound violation at a concrete request, plus the
spawn-free early return of `execute` for one of them. -/
theorem c9_task_count_bounds_witness :
    normalizeTaskParams
        (.obj [("type", .str "single"),
          ("tasks", .arr [.obj [("prompt", .str "a")], .obj [("prompt", .str "b")]])]) 8 =
      .err "Invalid parameters: type=\"single\" requires exactly one task in \"tasks\"." ∧
      normalizeTaskParams (.obj [("type", .str "parallel"), ("tasks", .arr [])]) 8 =
        .err "Invalid parameters: type=\"parallel\" requires a non-empty \"tasks\" array." ∧
      normalizeTaskParams
          (.obj [("type", .str "parallel"),
            ("tasks", .arr (List.replicate 9 (JVal.obj [("prompt", .str "x")])))]) 8 =
        .err ("Too many parallel tasks (" ++
          toString (rawTasksOf (.obj [("type", .str "parallel"),
            ("tasks", .arr (List.replicate 9 (JVal.obj [("prompt", .str "x")])))])).length ++
          "). Max is " ++ toString 8 ++ ".") ∧
      normalizeTaskParams (.obj [("type", .str "chain"), ("tasks", .arr [])]) 8 =
        .err "Invalid parameters: type=\"chain\" requires a non-empty \"tasks\" array." ∧
      normalizeTaskParams
          (.obj [("type", .str "chain"),
            ("tasks", .arr (List.replicate 9 (JVal.obj [("prompt", .str "x")])))]) 8 =
        .err ("Too many chain tasks (" ++
          toString (rawTasksOf (.obj [("type", .str "chain"),
            ("tasks", .arr (List.replicate 9 (JVal.obj [("prompt", .str "x")])))])).length ++
          "). Max is " ++ toString 8 ++ ".") ∧
      executePrefix (.obj [("type", .str "chain"), ("tasks", .arr [])]) 8 30 [] none
          (fun _ _ => ({ text := "dispatched", results := [], isError := false }, [7])) =
        ({ text := "Invalid parameters: type=\"chain\" requires a non-empty \"tasks\" array." ++
             "\nAvailable skills: " ++ (formatAvailableSkills [] 30).1 ++
             (if (formatAvailableSkills [] 30).2 > 0 then
               ", ... +" ++ toString (formatAvailableSkills [] 30).2 ++ " more"
              else ""),
           results := [], isError := false }, []) := by
  refine ⟨?_, ?_, ?_, ?_, ?_, ?_⟩
  · exact c9_task_count_bounds.1 _ 8 (by rfl) (by rfl) ⟨none, by rfl⟩ ⟨none, by rfl⟩ (by decide)
  · exact c9_task_count_bounds.2.1 _ 8 (by rfl) (by rfl) ⟨none, by rfl⟩ ⟨none, by rfl⟩ (by decide)
  · exact c9_task_count_bounds.2.2.1 _ 8 (by rfl) (by rfl) ⟨none, by rfl⟩ ⟨none, by rfl⟩
      (by decide)
  · exact c9_task_count_bounds.2.2.2.1 _ 8 (by rfl) (by rfl) ⟨none, by rfl⟩ ⟨none, by rfl⟩
      (by decide)
  · exact c9_task_count_bounds.2.2.2.2.1 _ 8 (by rfl) (by rfl) ⟨none, by rfl⟩ ⟨none, by rfl⟩
      (by decide)
  · exact c9_task_count_bounds.2.2.2.2.2 _ 8 30 [] none
      (fun _ _ => ({ text := "dispatched", results := [], isError := false }, [7])) _ (by decide)

/-- If a slash-free prefix precedes a slash, `findIdx?` finds exactly that
position. -/
theorem findIdx_slash_of_decomp (p m : List Char) (hp : '/' ∉ p) (i : Nat) :
    (p ++ '/' :: m).findIdx? (fun c => c = '/') i = some (i + p.length) := by
  induction p generalizing i with
  | nil => simp [List.findIdx?_cons]
  | cons c rest ih =>
    have hc : ¬ c = '/' := fun h => hp (h ▸ List.mem_cons_self c rest)
    have hrest : '/' ∉ rest := fun h => hp (List.mem_cons_of_mem c h)
    rw [List.cons_append, List.findIdx?_cons]
    have hdc : (decide (c = '/')) = false := by simp [hc]
    rw [hdc]
    simp only [Bool.false_eq_true, if_false]
    rw [ih hrest (i + 1)]
    congr 1
    simp only [List.length_cons]
    omega

/-- A successful `findIdx?` for the slash predicate decomposes the list into
a slash-free prefix, the slash, and the rest. -/
theorem decomp_of_findIdx_slash (cs : List Char) (i j : Nat)
    (h : cs.findIdx? (fun c => c = '/') i = some j) :
    i ≤ j ∧ ∃ p m, cs = p ++ '/' :: m ∧ p.length = j - i ∧ '/' ∉ p := by
  induction cs generalizing i with
  | nil => simp [List.findIdx?] at h
  | cons c rest ih =>
    rw [List.findIdx?_cons] at h
    by_cases hc : c = '/'
    · simp only [hc, decide_eq_true_eq] at h
      rw [if_pos trivial] at h
      injection h with h
      subst h
      exact ⟨Nat.le_refl i, [], rest, by rw [hc]; rfl, by simp, by simp⟩
    · have hdc : (decide (c = '/')) = true ↔ False := by simp [hc]
      rw [if_neg (by simp [hc])] at h
      obtain ⟨hij, p, m, hcs, hlen, hnp⟩ := ih (i + 1) h
      refine ⟨by omega, c :: p, m, by rw [hcs]; rfl, ?_, ?_⟩
      · simp only [List.length_cons]
        omega
      · intro hmem
        rcases List.mem_cons.mp hmem with h1 | h1
        · exact hc h1.symm
        · exact hnp h1

/-- Characterization of `parseProviderModel`: it succeeds exactly on strings
of the spec's shape `provider/modelId` (both sides non-empty, split at the
first slash), with the label reassembling the trimmed input; on any other
string it returns the terminal format error. -/
theorem parseProviderModel_char (value : String) :
    (specValidModelShape value →
        ∃ pm, parseProviderModel value = .ok pm ∧ pm.label = jsTrim value) ∧
      (¬ specValidModelShape value →
        parseProviderModel value =
          .err ("Invalid model format: \"" ++ value ++ "\". Expected provider/modelId.")) := by
  constructor
  · rintro ⟨p, m, hp, hm, hnp, hdec⟩
    have hplen : 0 < p.length := List.length_pos.mpr hp
    have hmlen : 0 < m.length := List.length_pos.mpr hm
    have hidx : (jsTrim value).toList.findIdx? (fun c => c = '/') = some p.length := by
      rw [hdec]
      have h0 := findIdx_slash_of_decomp p m hnp 0
      simpa using h0
    have hlen : (jsTrim value).toList.length = p.length + 1 + m.length := by
      rw [hdec]
      simp only [List.length_append, List.length_cons]
      omega
    have hcond : ¬ (p.length = 0 ∨ p.length = (jsTrim value).toList.length - 1) := by omega
    have htake : (jsTrim value).toList.take p.length = p := by
      rw [hdec]
      exact List.take_left p ('/' :: m)
    have hdrop : (jsTrim value).toList.drop (p.length + 1) = m := by
      rw [hdec, show p ++ '/' :: m = (p ++ ['/']) ++ m from by simp,
        show p.length + 1 = (p ++ ['/']).length from by simp]
      exact List.drop_left (p ++ ['/']) m
    refine ⟨{ provider := String.mk ((jsTrim value).toList.take p.length),
              modelId := String.mk ((jsTrim value).toList.drop (p.length + 1)),
              label := String.mk ((jsTrim value).toList.take p.length) ++ "/" ++
                String.mk ((jsTrim value).toList.drop (p.length + 1)) }, ?_, ?_⟩
    · unfold parseProviderModel
      simp only []
      rw [hidx]
      simp only [if_neg hcond]
    · show String.mk ((jsTrim value).toList.take p.length) ++ "/" ++
        String.mk ((jsTrim value).toList.drop (p.length + 1)) = jsTrim value
      rw [htake, hdrop]
      have hmk : jsTrim value = String.mk ((jsTrim value).toList) := rfl
      rw [hmk, hdec]
      show String.mk ((p ++ ['/']) ++ m) = String.mk (p ++ '/' :: m)
      congr 1
      simp
  · intro hshape
    unfold parseProviderModel
    simp only []
    cases heq : (jsTrim value).toList.findIdx? (fun c => c = '/') with
    | none => rfl
    | some j =>
      obtain ⟨-, p, m, hdec, hlen2, hnp⟩ := decomp_of_findIdx_slash _ 0 j heq
      rw [Nat.sub_zero] at hlen2
      have hcond : j = 0 ∨ j = (jsTrim value).toList.length - 1 := by
        by_contra hcon
        push_neg at hcon
        refine hshape ⟨p, m, ?_, ?_, hnp, hdec⟩
        · intro hpe
          apply hcon.1
          have h0 : p.length = 0 := by rw [hpe]; rfl
          omega
        · intro hme
          apply hcon.2
          have h3 : (jsTrim value).toList.length = p.length + 1 := by
            rw [hdec, hme]
            simp
          omega
      simp only [if_pos hcond]

/-- A successful `parseProviderModel` implies the spec shape, and its label
reassembles the trimmed input. -/
theorem parseProviderModel_ok_label (s : String) (pm : ProviderModel)
    (h : parseProviderModel s = .ok pm) : pm.label = jsTrim s ∧ specValidModelShape s := by
  by_cases hshape : specValidModelShape s
  · obtain ⟨pm2, hok2, hlab2⟩ := (parseProviderModel_char s).1 hshape
    rw [h] at hok2
    injection hok2 with he
    exact ⟨he ▸ hlab2, hshape⟩
  · rw [(parseProviderModel_char s).2 hshape] at h
    exact Res.noConfusion h

/-- On a truthy (non-empty) override, `resolveModel` is exactly the parse of
that override. -/
theorem resolveModel_truthy (s : String) (cm : Option CtxModel) (hs : strTruthy s = true) :
    resolveModel (some s) cm =
      match parseProviderModel s with
      | .err e => .err e
      | .ok m => .ok (some m) := by
  unfold resolveModel
  rw [if_pos (show optStrTruthy (some s) = true from hs)]
  rfl

/-- Claim C4: model resolution precedence is item override > shared default >
inherited session model > none, and every provided (post-normalization
truthy) model string is parsed against the `provider/modelId` shape — a
conforming string resolves with its trimmed label, any other yields the
terminal format error, and a provided string never silently resolves to "no
override". -/
theorem c4_model_resolution :
    (∀ (s : String) (ctxModel : Option CtxModel), strTruthy s = true →
        (((∃ pm, resolveModel (some s) ctxModel = .ok (some pm)) ↔ specValidModelShape s) ∧
          (∀ pm, parseProviderModel s = .ok pm →
            resolveModel (some s) ctxModel = .ok (some pm) ∧ pm.label = jsTrim s) ∧
          (¬ specValidModelShape s →
            resolveModel (some s) ctxModel =
              .err ("Invalid model format: \"" ++ s ++ "\". Expected provider/modelId.")) ∧
          resolveModel (some s) ctxModel ≠ .ok none)) ∧
      (∀ (item : TaskWorkItem) (dm : Option String) (dt it : String) (cm : Option CtxModel)
          (tools : List String) (s : String) (pm : ProviderModel),
        item.model = some s → strTruthy s = true → parseProviderModel s = .ok pm →
        resolveTaskConfig item dm dt it cm tools =
          .ok { thinkingLevel := resolveThinkingLevel ((item.thinking).getD dt) it,
                subprocessArgs := buildSubprocessArgs (some pm)
                  (resolveThinkingLevel ((item.thinking).getD dt) it) tools,
                modelLabel := some (jsTrim s) }) ∧
      (∀ (item : TaskWorkItem) (dm : Option String) (dt it : String) (cm : Option CtxModel)
          (tools : List String) (s : String),
        item.model = some s → strTruthy s = true → ¬ specValidModelShape s →
        resolveTaskConfig item dm dt it cm tools =
          .err ("Invalid model format: \"" ++ s ++ "\". Expected provider/modelId.")) ∧
      (∀ (item : TaskWorkItem) (dt it : String) (cm : Option CtxModel) (tools : List String)
          (s : String) (pm : ProviderModel),
        item.model = none → strTruthy s = true → parseProviderModel s = .ok pm →
        resolveTaskConfig item (some s) dt it cm tools =
          .ok { thinkingLevel := resolveThinkingLevel ((item.thinking).getD dt) it,
                subprocessArgs := buildSubprocessArgs (some pm)
                  (resolveThinkingLevel ((item.thinking).getD dt) it) tools,
                modelLabel := some (jsTrim s) }) ∧
      (∀ (item : TaskWorkItem) (dt it : String) (cm : Option CtxModel) (tools : List String)
          (s : String),
        item.model = none → strTruthy s = true → ¬ specValidModelShape s →
        resolveTaskConfig item (some s) dt it cm tools =
          .err ("Invalid model format: \"" ++ s ++ "\". Expected provider/modelId.")) ∧
      (∀ (item : TaskWorkItem) (dt it : String) (c : CtxModel) (tools : List String),
        item.model = none →
        resolveTaskConfig item none dt it (some c) tools =
          .ok { thinkingLevel := resolveThinkingLevel ((item.thinking).getD dt) it,
                subprocessArgs := buildSubprocessArgs
                  (some { provider := c.provider, modelId := c.id,
                          label := c.provider ++ "/" ++ c.id })
                  (resolveThinkingLevel ((item.thinking).getD dt) it) tools,
                modelLabel := some (c.provider ++ "/" ++ c.id) }) ∧
      ∀ (item : TaskWorkItem) (dt it : String) (tools : List String),
        item.model = none →
        resolveTaskConfig item none dt it none tools =
          .ok { thinkingLevel := resolveThinkingLevel ((item.thinking).getD dt) it,
                subprocessArgs := buildSubprocessArgs none
                  (resolveThinkingLevel ((item.thinking).getD dt) it) tools,
                modelLabel := none } := by
  have hok : ∀ (s : String) (cm : Option CtxModel) (pm : ProviderModel), strTruthy s = true →
      parseProviderModel s = .ok pm → resolveModel (some s) cm = .ok (some pm) := by
    intro s cm pm hs hp
    rw [resolveModel_truthy s cm hs, hp]
  have herr : ∀ (s : String) (cm : Option CtxModel), strTruthy s = true →
      ¬ specValidModelShape s →
      resolveModel (some s) cm =
        .err ("Invalid model format: \"" ++ s ++ "\". Expected provider/modelId.") := by
    intro s cm hs hshape
    rw [resolveModel_truthy s cm hs, (parseProviderModel_char s).2 hshape]
  refine ⟨?_, ?_, ?_, ?_, ?_, ?_, ?_⟩
  · intro s cm hs
    refine ⟨⟨?_, ?_⟩, ?_, herr s cm hs, ?_⟩
    · rintro ⟨pm, hpm⟩
      by_contra hshape
      rw [herr s cm hs hshape] at hpm
      exact Res.noConfusion hpm
    · intro hshape
      obtain ⟨pm, hp, -⟩ := (parseProviderModel_char s).1 hshape
      exact ⟨pm, hok s cm pm hs hp⟩
    · intro pm hp
      exact ⟨hok s cm pm hs hp, (parseProviderModel_ok_label s pm hp).1⟩
    · intro hcon
      rcases hp : parseProviderModel s with pm | e
      · rw [hok s cm pm hs hp] at hcon
        injection hcon with hcon
        exact Option.noConfusion hcon
      · have hshape : ¬ specValidModelShape s := by
          intro hshape
          obtain ⟨pm2, hp2, -⟩ := (parseProviderModel_char s).1 hshape
          rw [hp] at hp2
          exact Res.noConfusion hp2
        rw [herr s cm hs hshape] at hcon
        exact Res.noConfusion hcon
  · intro item dm dt it cm tools s pm hitem hs hp
    have hlab := (parseProviderModel_ok_label s pm hp).1
    unfold resolveTaskConfig
    simp only []
    rw [hitem]
    rw [show (some s).orElse (fun _ => dm) = some s from rfl]
    rw [hok s cm pm hs hp]
    simp [hlab]
  · intro item dm dt it cm tools s hitem hs hshape
    unfold resolveTaskConfig
    simp only []
    rw [hitem]
    rw [show (some s).orElse (fun _ => dm) = some s from rfl]
    rw [herr s cm hs hshape]
  · intro item dt it cm tools s pm hitem hs hp
    have hlab := (parseProviderModel_ok_label s pm hp).1
    unfold resolveTaskConfig
    simp only []
    rw [hitem]
    rw [show (none : Option String).orElse (fun _ => some s) = some s from rfl]
    rw [hok s cm pm hs hp]
    simp [hlab]
  · intro item dt it cm tools s hitem hs hshape
    unfold resolveTaskConfig
    simp only []
    rw [hitem]
    rw [show (none : Option String).orElse (fun _ => some s) = some s from rfl]
    rw [herr s cm hs hshape]
  · intro item dt it c tools hitem
    unfold resolveTaskConfig
    simp only []
    rw [hitem]
    rfl
  · intro item dt it tools hitem
    unfold resolveTaskConfig
    simp only []
    rw [hitem]
    rfl

/-- Claim C4, witness: an item override `acme/modelZ` beats both the shared
default `acme/modelY` and the inherited session model `acme/modelX`, and the
malformed string `acme` yields the terminal format error. -/
theorem c4_model_resolution_witness :
    resolveTaskConfig
        { prompt := "p", skill := none, model := some "acme/modelZ", thinking := none,
          fork := false }
        (some "acme/modelY") "inherit" "low" (some { provider := "acme", id := "modelX" }) [] =
      .ok { thinkingLevel := "low",
            subprocessArgs := ["--mode", "json", "-p", "--no-session", "--no-extensions",
              "--provider", "acme", "--model", "modelZ", "--thinking", "low", "--no-tools"],
            modelLabel := some "acme/modelZ" } ∧
      resolveModel (some "acme") (some { provider := "acme", id := "modelX" }) =
        .err ("Invalid model format: \"" ++ "acme" ++ "\". Expected provider/modelId.") := by
  have hnos : ¬ specValidModelShape "acme" := by
    rintro ⟨p, m, -, -, -, hdec⟩
    have hmem : '/' ∈ (jsTrim "acme").toList := by
      rw [hdec]
      exact List.mem_append_right _ (List.mem_cons_self _ _)
    revert hmem
    decide
  constructor
  · have h := c4_model_resolution.2.1
      { prompt := "p", skill := none, model := some "acme/modelZ", thinking := none,
        fork := false }
      (some "acme/modelY") "inherit" "low" (some { provider := "acme", id := "modelX" }) []
      "acme/modelZ"
      { provider := "acme", modelId := "modelZ", label := "acme/modelZ" }
      rfl (by decide) (by decide)
    rw [h]
    rfl
  · exact (c4_model_resolution.1 "acme" (some { provider := "acme", id := "modelX" })
      (by decide)).2.2.1 hnos

/-- `splitNl` never returns the empty list. -/
theorem splitNl_ne_nil (l : List Char) : splitNl l ≠ [] := by
  cases l with
  | nil => simp [splitNl]
  | cons c cs =>
    unfold splitNl
    by_cases hc : c = '\n'
    · simp [hc]
    · rw [if_neg hc]
      cases splitNl cs <;> simp

/-- `splitNl` on a leading newline. -/
theorem splitNl_cons_nl (cs : List Char) : splitNl ('\n' :: cs) = [] :: splitNl cs := rfl

/-- `splitNl` on a leading non-newline character prepends it to the first
piece. -/
theorem splitNl_cons_ne (c : Char) (cs : List Char) (hc : ¬ c = '\n') (l : List Char)
    (ls : List (List Char)) (h : splitNl cs = l :: ls) :
    splitNl (c :: cs) = (c :: l) :: ls := by
  unfold splitNl
  rw [if_neg hc, h]

/-- No piece produced by `splitNl` contains a newline. -/
theorem mem_splitNl_no_nl (l : List Char) (x : List Char) (hx : x ∈ splitNl l) : '\n' ∉ x := by
  induction l generalizing x with
  | nil =>
    simp [splitNl] at hx
    simp [hx]
  | cons c cs ih =>
    by_cases hc : c = '\n'
    · subst hc
      rw [splitNl_cons_nl] at hx
      rcases List.mem_cons.mp hx with h1 | h1
      · simp [h1]
      · exact ih x h1
    · rcases hsp : splitNl cs with _ | ⟨l0, ls0⟩
      · exact absurd hsp (splitNl_ne_nil cs)
      · rw [splitNl_cons_ne c cs hc l0 ls0 hsp] at hx
        rcases List.mem_cons.mp hx with h1 | h1
        · subst h1
          intro hmem
          rcases List.mem_cons.mp hmem with h2 | h2
          · exact hc h2.symm
          · exact ih l0 (hsp ▸ List.mem_cons_self l0 ls0) h2
        · exact ih x (hsp ▸ List.mem_cons_of_mem l0 h1)

/-- A newline-free list is a single `splitNl` piece. -/
theorem splitNl_no_nl (l : List Char) (h : '\n' ∉ l) : splitNl l = [l] := by
  induction l with
  | nil => rfl
  | cons c cs ih =>
    have hc : ¬ c = '\n' := fun he => h (he ▸ List.mem_cons_self c cs)
    have hcs : '\n' ∉ cs := fun hm => h (List.mem_cons_of_mem c hm)
    exact splitNl_cons_ne c cs hc cs [] (ih hcs)

/-- `getLastD` of a non-empty list ignores the default. -/
theorem getLastD_indep {α : Type} (xs : List α) (h : xs ≠ []) (d d' : α) :
    xs.getLastD d = xs.getLastD d' := by
  cases xs with
  | nil => exact absurd rfl h
  | cons x xs => rw [List.getLastD_cons, List.getLastD_cons]

/-- `getLastD` of a non-empty list is a member. -/
theorem getLastD_mem {α : Type} (xs : List α) (h : xs ≠ []) (d : α) : xs.getLastD d ∈ xs := by
  cases xs with
  | nil => exact absurd rfl h
  | cons x xs =>
    rw [List.getLastD_cons]
    exact List.getLastD_mem_cons xs x

/-- `getLastD` past a prefix of a non-empty list. -/
theorem getLastD_append {α : Type} (xs ys : List α) (h : ys ≠ []) (d : α) :
    (xs ++ ys).getLastD d = ys.getLastD d := by
  induction xs generalizing d with
  | nil => rfl
  | cons x xs ih =>
    rw [List.cons_append, List.getLastD_cons, ih x]
    exact getLastD_indep ys h x d

/-- Splitting an appended buffer: all pieces of the first part except its
unterminated tail, then the split of that tail glued to the rest. -/
theorem splitNl_append (a b : List Char) :
    splitNl (a ++ b) = (splitNl a).dropLast ++ splitNl ((splitNl a).getLastD [] ++ b) := by
  induction a with
  | nil => simp [splitNl]
  | cons c a2 ih =>
    rcases hsp : splitNl a2 with _ | ⟨l0, ls0⟩
    · exact absurd hsp (splitNl_ne_nil a2)
    by_cases hc : c = '\n'
    · subst hc
      rw [List.cons_append, splitNl_cons_nl, splitNl_cons_nl, ih, hsp]
      rcases ls0 with _ | ⟨l1, ls1⟩
      · simp [List.getLastD_cons]
      · simp only [List.dropLast_cons₂, List.getLastD_cons, List.cons_append]
    · rcases ls0 with _ | ⟨l1, ls1⟩
      · have h2 : splitNl (a2 ++ b) = splitNl (l0 ++ b) := by
          rw [ih, hsp]
          simp [List.getLastD_cons]
        rcases hsp2 : splitNl (l0 ++ b) with _ | ⟨m0, ms0⟩
        · exact absurd hsp2 (splitNl_ne_nil (l0 ++ b))
        have hL : splitNl (c :: (a2 ++ b)) = (c :: m0) :: ms0 :=
          splitNl_cons_ne c (a2 ++ b) hc m0 ms0 (h2.trans hsp2)
        rw [List.cons_append, hL, splitNl_cons_ne c a2 hc l0 [] hsp]
        simp only [List.dropLast_single, List.nil_append, List.getLastD_cons,
          List.getLastD_nil]
        rw [List.cons_append]
        exact (splitNl_cons_ne c (l0 ++ b) hc m0 ms0 hsp2).symm
      · have h2 : splitNl (a2 ++ b) =
            l0 :: ((l1 :: ls1).dropLast ++ splitNl ((l1 :: ls1).getLastD [] ++ b)) := by
          rw [ih, hsp]
          simp only [List.dropLast_cons₂, List.getLastD_cons, List.cons_append]
        rw [List.cons_append, splitNl_cons_ne c (a2 ++ b) hc _ _ h2,
          splitNl_cons_ne c a2 hc l0 (l1 :: ls1) hsp]
        simp only [List.dropLast_cons₂, List.getLastD_cons, List.cons_append]

/-- A non-empty list is its `dropLast` plus its `getLastD`. -/
theorem dropLast_append_getLastD {α : Type} (l : List α) (h : l ≠ []) (d : α) :
    l.dropLast ++ [l.getLastD d] = l := by
  induction l generalizing d with
  | nil => exact absurd rfl h
  | cons x xs ih =>
    cases xs with
    | nil => simp
    | cons y ys =>
      rw [List.dropLast_cons₂, List.getLastD_cons, List.cons_append,
        ih (List.cons_ne_nil y ys) x]

/-- A blank line is never accepted (`parseJsonLine` discards it before
parsing). -/
theorem lineEvent_blank (parse : List Char → Option JVal) (line : List Char)
    (h : isBlankLine line = true) : lineEvent parse line = none := by
  unfold lineEvent parseJsonLine
  rw [if_pos h]

/-- Folding the `data` handler over any chunk sequence, from a newline-free
buffer: the buffer ends as the unterminated tail of the whole text and the
events are the accepted messages of all complete lines, in order. -/
theorem streamData_foldl (parse : List Char → Option JVal) (chunks : List (List Char))
    (st : StreamState) (hb : '\n' ∉ st.buffer) :
    chunks.foldl (streamData parse) st =
      { buffer := (splitNl (st.buffer ++ chunks.flatten)).getLastD [],
        events := st.events ++
          ((splitNl (st.buffer ++ chunks.flatten)).dropLast).filterMap (lineEvent parse) } := by
  induction chunks generalizing st with
  | nil =>
    simp only [List.foldl_nil, List.flatten_nil, List.append_nil, splitNl_no_nl st.buffer hb,
      List.getLastD_cons, List.getLastD_nil, List.dropLast_single, List.filterMap_nil]
  | cons chunk rest ih =>
    rw [List.foldl_cons]
    have hbuf2 : '\n' ∉ (streamData parse st chunk).buffer :=
      mem_splitNl_no_nl _ _ (getLastD_mem _ (splitNl_ne_nil _) [])
    rw [ih (streamData parse st chunk) hbuf2]
    have hsa := splitNl_append (st.buffer ++ chunk) rest.flatten
    simp only [streamData, List.flatten_cons, ← List.append_assoc, hsa,
      StreamState.mk.injEq]
    constructor
    · rw [getLastD_append _ _ (splitNl_ne_nil _)]
    · rw [List.dropLast_append_of_ne_nil _ (splitNl_ne_nil _), List.filterMap_append,
        List.append_assoc]

/-- Claim C6: feeding any chunk sequence to the stdout handler and closing
splits the concatenated byte stream on newline boundaries (independently of
chunk boundaries, with the trailing unterminated text parsed as one final
line on close) and accepts per line exactly what `lineEvent` accepts;
moreover a blank line, a line `JSON.parse` rejects, and a line parsing to a
non-record are all skipped without affecting any other line, and an accepted
message comes from a parsed record with a completed-message or
completed-tool-result `type` and a role in {assistant, user, toolResult}. -/
theorem c6_stream_events (parse : List Char → Option JVal) (chunks : List (List Char)) :
    runStream parse chunks = (splitNl chunks.flatten).filterMap (lineEvent parse) ∧
      (∀ line, isBlankLine line = true → lineEvent parse line = none) ∧
      (∀ line, parse line = none → lineEvent parse line = none) ∧
      (∀ line v, parse line = some v → isRecord v = false → lineEvent parse line = none) ∧
      ∀ line msg, lineEvent parse line = some msg →
        ∃ event, parseJsonLine parse line = some event ∧
          (eventTypeText event = "message_end" ∨ eventTypeText event = "tool_result_end") ∧
          event.getField "message" = some msg ∧ isMessageJ (some msg) = true := by
  refine ⟨?_, fun line h => lineEvent_blank parse line h, ?_, ?_, ?_⟩
  · unfold runStream
    rw [streamData_foldl parse chunks initStream (by simp [initStream])]
    simp only [initStream, List.nil_append]
    unfold streamClose
    by_cases hblank : isBlankLine ((splitNl chunks.flatten).getLastD []) = true
    · rw [if_pos hblank]
      simp only [List.nil_append]
      conv_rhs => rw [← dropLast_append_getLastD (splitNl chunks.flatten)
        (splitNl_ne_nil chunks.flatten) []]
      rw [List.filterMap_append]
      simp only [List.filterMap_cons, lineEvent_blank parse _ hblank, List.filterMap_nil,
        List.append_nil]
    · rw [if_neg hblank]
      simp only [List.nil_append]
      conv_rhs => rw [← dropLast_append_getLastD (splitNl chunks.flatten)
        (splitNl_ne_nil chunks.flatten) []]
      rw [List.filterMap_append]
      congr 1
  · intro line hp
    have hpj : parseJsonLine parse line = none := by
      unfold parseJsonLine
      rw [hp]
      cases isBlankLine line <;> simp
    unfold lineEvent
    rw [hpj]
  · intro line v hp hrec
    have hpj : parseJsonLine parse line = none := by
      unfold parseJsonLine
      rw [hp]
      cases isBlankLine line <;> simp [hrec]
    unfold lineEvent
    rw [hpj]
  · intro line msg h
    unfold lineEvent at h
    rcases hp : parseJsonLine parse line with _ | event
    · rw [hp] at h
      exact Option.noConfusion h
    · rw [hp] at h
      simp only [] at h
      by_cases hacc : (eventTypeText event = "message_end" ∨
          eventTypeText event = "tool_result_end") ∧ isMessageJ (event.getField "message") = true
      · rw [if_pos hacc] at h
        exact ⟨event, rfl, hacc.1, h, by rw [← h]; exact hacc.2⟩
      · rw [if_neg hacc] at h
        exact Option.noConfusion h

/-- Claim C6, witness: a concrete oracle and chunking. The stream
`"a\nxy\nb\nc"` arrives as three chunks that split lines arbitrarily; line
`a` parses to an accepted completed-message event, line `xy` fails to parse,
line `b` parses to a non-record, and the unterminated trailing line `c`
parses to an accepted completed-tool-result event on close. Exactly the two
accepted messages survive, in order. -/
theorem c6_stream_events_witness :
    runStream
        (fun l =>
          if l = "a".toList then
            some (.obj [("type", .str "message_end"),
              ("message", .obj [("role", .str "assistant")])])
          else if l = "b".toList then some (.num 1)
          else if l = "c".toList then
            some (.obj [("type", .str "tool_result_end"),
              ("message", .obj [("role", .str "toolResult")])])
          else none)
        ["a\nx".toList, "y\nb\n".toList, "c".toList] =
      [JVal.obj [("role", .str "assistant")], JVal.obj [("role", .str "toolResult")]] := by
  rw [(c6_stream_events
    (fun l =>
      if l = "a".toList then
        some (.obj [("type", .str "message_end"),
          ("message", .obj [("role", .str "assistant")])])
      else if l = "b".toList then some (.num 1)
      else if l = "c".toList then
        some (.obj [("type", .str "tool_result_end"),
          ("message", .obj [("role", .str "toolResult")])])
      else none)
    ["a\nx".toList, "y\nb\n".toList, "c".toList]).1]
  rfl

/-- The inductive invariant of the scheduler: the worker pool has the fixed
`limit` size, the result array has one slot per item, no item was started
twice, started items are claimed (below `nextIndex`) and in range, running
indices are in range, claimed, and pairwise distinct across workers, every
claimed in-range index is either populated with its task value or currently
running on some worker, and a worker only retires after `nextIndex` passed
the end of the items. -/
structure SchedInv {α β : Type} (items : List α) (fn : α → Nat → β) (C : Nat)
    (s : SchedState β) : Prop where
  workersLen : s.workers.length = limitOf C items.length
  resLen : s.res.length = items.length
  startedNodup : s.started.Nodup
  startedLt : ∀ i ∈ s.started, i < s.next ∧ i < items.length
  runningLt : ∀ (w i : Nat), s.workers[w]? = some (WorkerState.running i) →
    i < items.length ∧ i < s.next
  runningDistinct : ∀ (w1 w2 i : Nat), s.workers[w1]? = some (WorkerState.running i) →
    s.workers[w2]? = some (WorkerState.running i) → w1 = w2
  resPopulated : ∀ (i : Nat), (hi : i < items.length) → i < s.next →
    s.res[i]? = some (some (fn (items.get ⟨i, hi⟩) i)) ∨
      ∃ w : Nat, s.workers[w]? = some (WorkerState.running i)
  doneNext : ∀ w : Nat, s.workers[w]? = some WorkerState.done → items.length < s.next

/-- The initial scheduler state satisfies the invariant. -/
theorem schedInv_init {α β : Type} (items : List α) (fn : α → Nat → β) (C : Nat) :
    SchedInv items fn C (initSched β C items) := by
  refine ⟨by simp [initSched], by simp [initSched], by simp [initSched],
    by simp [initSched], ?_, ?_, ?_, ?_⟩
  · intro w i h
    simp only [initSched, List.getElem?_replicate] at h
    split at h
    · injection h with h
      exact WorkerState.noConfusion h
    · exact Option.noConfusion h
  · intro w1 w2 i h1 h2
    simp only [initSched, List.getElem?_replicate] at h1
    split at h1
    · injection h1 with h1
      exact WorkerState.noConfusion h1
    · exact Option.noConfusion h1
  · intro i hi hnext
    simp only [initSched] at hnext
    omega
  · intro w h
    simp only [initSched, List.getElem?_replicate] at h
    split at h
    · injection h with h
      exact WorkerState.noConfusion h
    · exact Option.noConfusion h

/-- Every scheduler step preserves the invariant. -/
theorem schedInv_step {α β : Type} {items : List α} {fn : α → Nat → β} {C : Nat}
    {s t : SchedState β} (hs : SchedInv items fn C s) (hst : SchedStep items fn s t) :
    SchedInv items fn C t := by
  cases hst with
  | claim w h =>
    have hwlt : w < s.workers.length := by
      cases hlt : s.workers[w]? with
      | none =>
        rw [hlt] at h
        exact Option.noConfusion h
      | some v => exact (List.getElem?_eq_some.mp hlt).1
    refine ⟨?_, ?_, ?_, ?_, ?_, ?_, ?_, ?_⟩ <;> dsimp only
    · simp [List.length_set, hs.workersLen]
    · exact hs.resLen
    · by_cases hN : s.next < items.length
      · rw [if_pos hN]
        refine List.Nodup.append hs.startedNodup (by simp) ?_
        intro a ha hb
        simp only [List.mem_singleton] at hb
        subst hb
        exact absurd (hs.startedLt _ ha).1 (lt_irrefl _)
      · rw [if_neg hN]
        exact hs.startedNodup
    · intro i hi
      by_cases hN : s.next < items.length
      · rw [if_pos hN] at hi
        rcases List.mem_append.mp hi with h1 | h1
        · have := hs.startedLt i h1
          omega
        · simp only [List.mem_singleton] at h1
          subst h1
          omega
      · rw [if_neg hN] at hi
        have := hs.startedLt i hi
        omega
    · intro w2 i h2
      by_cases hww : w2 = w
      · subst hww
        rw [List.getElem?_set_eq_of_lt _ hwlt] at h2
        injection h2 with h2
        by_cases hN : s.next < items.length
        · rw [if_pos hN] at h2
          injection h2 with h2
          subst h2
          omega
        · rw [if_neg hN] at h2
          exact WorkerState.noConfusion h2
      · rw [List.getElem?_set_ne (fun he => hww he.symm)] at h2
        have := hs.runningLt w2 i h2
        omega
    · intro w1 w2 i h1 h2
      by_cases hw1 : w1 = w <;> by_cases hw2 : w2 = w
      · rw [hw1, hw2]
      · subst hw1
        rw [List.getElem?_set_eq_of_lt _ hwlt] at h1
        rw [List.getElem?_set_ne (fun he => hw2 he.symm)] at h2
        injection h1 with h1
        by_cases hN : s.next < items.length
        · rw [if_pos hN] at h1
          injection h1 with h1
          subst h1
          have := hs.runningLt w2 s.next h2
          omega
        · rw [if_neg hN] at h1
          exact WorkerState.noConfusion h1
      · subst hw2
        rw [List.getElem?_set_eq_of_lt _ hwlt] at h2
        rw [List.getElem?_set_ne (fun he => hw1 he.symm)] at h1
        injection h2 with h2
        by_cases hN : s.next < items.length
        · rw [if_pos hN] at h2
          injection h2 with h2
          subst h2
          have := hs.runningLt w1 s.next h1
          omega
        · rw [if_neg hN] at h2
          exact WorkerState.noConfusion h2
      · rw [List.getElem?_set_ne (fun he => hw1 he.symm)] at h1
        rw [List.getElem?_set_ne (fun he => hw2 he.symm)] at h2
        exact hs.runningDistinct w1 w2 i h1 h2
    · intro i hi hnext
      by_cases hio : i < s.next
      · rcases hs.resPopulated i hi hio with h1 | ⟨w3, h3⟩
        · exact Or.inl h1
        · right
          refine ⟨w3, ?_⟩
          have hww : w3 ≠ w := by
            intro he
            subst he
            rw [h3] at h
            injection h with h
            exact WorkerState.noConfusion h
          rw [List.getElem?_set_ne (fun he => hww he.symm)]
          exact h3
      · have hieq : i = s.next := by omega
        subst hieq
        right
        refine ⟨w, ?_⟩
        rw [List.getElem?_set_eq_of_lt _ hwlt, if_pos hi]
    · intro w2 h2
      by_cases hww : w2 = w
      · subst hww
        rw [List.getElem?_set_eq_of_lt _ hwlt] at h2
        injection h2 with h2
        by_cases hN : s.next < items.length
        · rw [if_pos hN] at h2
          exact WorkerState.noConfusion h2
        · omega
      · rw [List.getElem?_set_ne (fun he => hww he.symm)] at h2
        have := hs.doneNext w2 h2
        omega
  | complete w i hw hi =>
    have hwlt : w < s.workers.length := (List.getElem?_eq_some.mp hw).1
    refine ⟨?_, ?_, ?_, ?_, ?_, ?_, ?_, ?_⟩ <;> dsimp only
    · simp [List.length_set, hs.workersLen]
    · simp [List.length_set, hs.resLen]
    · exact hs.startedNodup
    · exact hs.startedLt
    · intro w2 j h2
      by_cases hww : w2 = w
      · subst hww
        rw [List.getElem?_set_eq_of_lt _ hwlt] at h2
        injection h2 with h2
        exact WorkerState.noConfusion h2
      · rw [List.getElem?_set_ne (fun he => hww he.symm)] at h2
        exact hs.runningLt w2 j h2
    · intro w1 w2 j h1 h2
      by_cases hw1 : w1 = w
      · subst hw1
        rw [List.getElem?_set_eq_of_lt _ hwlt] at h1
        injection h1 with h1
        exact WorkerState.noConfusion h1
      · by_cases hw2 : w2 = w
        · subst hw2
          rw [List.getElem?_set_eq_of_lt _ hwlt] at h2
          injection h2 with h2
          exact WorkerState.noConfusion h2
        · rw [List.getElem?_set_ne (fun he => hw1 he.symm)] at h1
          rw [List.getElem?_set_ne (fun he => hw2 he.symm)] at h2
          exact hs.runningDistinct w1 w2 j h1 h2
    · intro j hj hjn
      by_cases hji : j = i
      · subst hji
        left
        rw [List.getElem?_set_eq_of_lt _ (by rw [hs.resLen]; exact hj)]
      · rcases hs.resPopulated j hj hjn with h1 | ⟨w3, h3⟩
        · left
          rw [List.getElem?_set_ne (fun he => hji he.symm)]
          exact h1
        · right
          have hww : w3 ≠ w := by
            intro he
            subst he
            rw [h3] at hw
            injection hw with hw
            injection hw with hw
            exact hji hw
          refine ⟨w3, ?_⟩
          rw [List.getElem?_set_ne (fun he => hww he.symm)]
          exact h3
    · intro w2 h2
      by_cases hww : w2 = w
      · subst hww
        rw [List.getElem?_set_eq_of_lt _ hwlt] at h2
        injection h2 with h2
        exact WorkerState.noConfusion h2
      · rw [List.getElem?_set_ne (fun he => hww he.symm)] at h2
        exact hs.doneNext w2 h2

/-- Every reachable scheduler state satisfies the invariant. -/
theorem schedInv_reach {α β : Type} {C : Nat} {items : List α} {fn : α → Nat → β}
    {s : SchedState β} (h : SchedReach C items fn s) : SchedInv items fn C s := by
  induction h with
  | init => exact schedInv_init items fn C
  | step hr hst ih => exact schedInv_step ih hst

/-- Claim C1, counterexample: the claim also asserts "never more than C shown
Running when C < N", but the parallel branch creates its placeholder array
with the default `exitCode = -1` (Running) for every item before any task is
scheduled, so with concurrency bound C = 1 and N = 2 items the very first
`emitParallelUpdate` already counts 2 tasks as Running. -/
theorem c1_counterexample :
    1 < (parallelPlaceholders
        [{ item := { prompt := "p", skill := none, model := none, thinking := none,
                     fork := false },
           subprocessPrompt := "p",
           config := { thinkingLevel := "low", subprocessArgs := [], modelLabel := none } },
         { item := { prompt := "q", skill := none, model := none, thinking := none,
                     fork := false },
           subprocessPrompt := "q",
           config := { thinkingLevel := "low", subprocessArgs := [], modelLabel := none } }]).length ∧
      1 < shownRunningCount (parallelPlaceholders
        [{ item := { prompt := "p", skill := none, model := none, thinking := none,
                     fork := false },
           subprocessPrompt := "p",
           config := { thinkingLevel := "low", subprocessArgs := [], modelLabel := none } },
         { item := { prompt := "q", skill := none, model := none, thinking := none,
                     fork := false },
           subprocessPrompt := "q",
           config := { thinkingLevel := "low", subprocessArgs := [], modelLabel := none } }]) := by
  constructor <;> decide

/-- Claim C1, amended: for every item list and concurrency bound C ≥ 1, every
reachable state of the scheduler has at most `min C N` task functions
running simultaneously, never starts an item twice, and every terminal state
(all workers retired, i.e. the call has returned) has the output array fully
populated with the task function's value per item, indexed to match input
order — over all interleavings, hence regardless of completion order. (The
progress display, by contrast, may show all N placeholders as Running before
scheduling; see the counterexample.) -/
theorem c1_scheduler_invariants {α β : Type} (C : Nat) (items : List α) (fn : α → Nat → β)
    (s : SchedState β) (hC : 1 ≤ C) (h : SchedReach C items fn s) :
    runningCount s ≤ min C items.length ∧
      s.started.Nodup ∧
      (terminalSched s → ∀ (i : Nat) (hi : i < items.length),
        s.res[i]? = some (some (fn (items.get ⟨i, hi⟩) i))) := by
  have inv := schedInv_reach h
  refine ⟨?_, inv.startedNodup, ?_⟩
  · by_cases hN : items.length = 0
    · have h0 : runningCount s = 0 := by
        rw [runningCount, List.countP_eq_zero]
        intro a ha
        rcases List.mem_iff_getElem?.mp ha with ⟨w, hw⟩
        cases a with
        | idle => simp [isRunningW]
        | done => simp [isRunningW]
        | running i =>
          have := inv.runningLt w i hw
          omega
      omega
    · have hlim : limitOf C items.length = min C items.length := by
        unfold limitOf
        omega
      calc runningCount s ≤ s.workers.length := List.countP_le_length _
        _ = limitOf C items.length := inv.workersLen
        _ = min C items.length := hlim
  · intro hterm i hi
    have hlen : 0 < s.workers.length := by
      rw [inv.workersLen]
      unfold limitOf
      omega
    have hdone : s.workers.get ⟨0, hlen⟩ = WorkerState.done :=
      hterm _ (s.workers.get_mem 0 hlen)
    have hnext : items.length < s.next := by
      refine inv.doneNext 0 ?_
      rw [List.getElem?_eq_getElem hlen]
      rw [show s.workers[0] = s.workers.get ⟨0, hlen⟩ from rfl, hdone]
    rcases inv.resPopulated i hi (by omega) with h1 | ⟨w3, h3⟩
    · exact h1
    · exfalso
      rcases List.getElem?_eq_some.mp h3 with ⟨hlt3, hg3⟩
      have hmem3 : WorkerState.running i ∈ s.workers := by
        rw [← hg3]
        exact s.workers.get_mem w3 hlt3
      exact WorkerState.noConfusion (hterm _ hmem3)

/-- Claim C1, witness: the amended invariants instantiated at a concrete
scheduler call (C = 2, three items) at its initial reachable state. -/
theorem c1_scheduler_invariants_witness :
    runningCount (initSched Nat 2 [10, 20, 30]) ≤ min 2 ([10, 20, 30] : List Nat).length ∧
      (initSched Nat 2 ([10, 20, 30] : List Nat)).started.Nodup :=
  ⟨(c1_scheduler_invariants 2 [10, 20, 30] (fun a i => a + i) _ (by decide) SchedReach.init).1,
    (c1_scheduler_invariants 2 [10, 20, 30] (fun a i => a + i) _ (by decide) SchedReach.init).2.1⟩

/-- A placeholder with `exitCode = -2` classifies as Pending. -/
theorem placeholder_pending (item : TaskWorkItem) (index : Option Nat)
    (thinking model : Option String) :
    getTaskStatus (createPlaceholderResult item index thinking model (-2)) = .Pending := rfl

/-- A settled result (non-negative exit code) never classifies as Pending or
Running. -/
theorem settled_not_pending (r : SingleResult) (h : 0 ≤ r.exitCode) :
    getTaskStatus r ≠ .Pending ∧ getTaskStatus r ≠ .Running := by
  have h1 : isTaskPending r = false := by
    simp [isTaskPending]
    omega
  have h2 : isTaskRunning r = false := by
    simp [isTaskRunning]
    omega
  unfold getTaskStatus
  rw [h1, h2]
  simp only [Bool.false_eq_true, if_false]
  by_cases h3 : isTaskError r = true <;> simp [h3]


/-- Shifting the base of the attempted-step bookkeeping by one. -/
theorem chainAttempted_shift (A : List Nat) (base n : Nat) :
    (A ++ [base + 1]) ++ (List.range n).map (fun j => base + 1 + j + 1) =
      A ++ (List.range (n + 1)).map (fun j => base + j + 1) := by
  rw [List.append_assoc]
  congr 1
  conv_rhs => rw [List.range_succ_eq_map]
  rw [List.map_cons, List.map_map, List.singleton_append]
  congr 1
  refine List.map_congr_left ?_
  intro a ha
  simp only [Function.comp_apply]
  omega

/-- Behaviour of the chain loop when configuration and skill resolution
succeed everywhere and the subprocess run of relative step `m` is the first
to classify as Failed: the loop stops right there with the fail-fast
message, having attempted exactly the steps up to and including the failing
one, leaving every later entry of the results array untouched and every
attempted entry set to its runner result. -/
theorem chainGo_runner_fail (dm : Option String) (dt it : String) (cm : Option CtxModel)
    (tools : List String) (buildP : TaskWorkItem → Res String)
    (runner : Nat → TaskWorkItem → String → SingleResult) :
    ∀ (m : Nat) (rest : List TaskWorkItem) (idx : Nat) (prev : String)
      (results : List SingleResult) (attempted : List Nat),
      m < rest.length →
      idx + rest.length ≤ results.length →
      (∀ item ∈ rest, ∃ c, resolveTaskConfig item dm dt it cm tools = .ok c) →
      (∀ item ∈ rest, ∀ q : String, ∃ p, buildP { item with prompt := q } = .ok p) →
      (∀ (j : Nat) (item : TaskWorkItem) (p : String), idx ≤ j → j < idx + m →
        isTaskError (runner j item p) = false) →
      (∀ (item : TaskWorkItem) (p : String), isTaskError (runner (idx + m) item p) = true) →
      ∃ (R : List SingleResult) (failResult : SingleResult),
        (∃ item p, failResult = runner (idx + m) item p) ∧
          chainGo dm dt it cm tools buildP runner idx prev results attempted rest =
            { content := "Chain stopped at step " ++ toString (idx + m + 1) ++ ": " ++
                getTaskErrorText failResult,
              results := R, isError := true,
              attempted := attempted ++ (List.range (m + 1)).map (fun j => idx + j + 1) } ∧
          R.length = results.length ∧
          (∀ j : Nat, j < idx ∨ idx + m < j → R[j]? = results[j]?) ∧
          ∀ j : Nat, idx ≤ j → j ≤ idx + m → ∃ item p, R[j]? = some (runner j item p) := by
  intro m
  induction m with
  | zero =>
    intro rest idx prev results attempted hm hlen hcfg hbuild hok hfail
    cases rest with
    | nil => simp at hm
    | cons item rest2 =>
      obtain ⟨c, hc⟩ := hcfg item (List.mem_cons_self item rest2)
      obtain ⟨p, hp⟩ := hbuild item (List.mem_cons_self item rest2)
        (buildChainPrompt item.prompt prev)
      have hidxlt : idx < results.length := by
        simp only [List.length_cons] at hlen
        omega
      have hfail0 : isTaskError
          (runner idx { item with prompt := buildChainPrompt item.prompt prev } p) = true := by
        have := hfail { item with prompt := buildChainPrompt item.prompt prev } p
        simpa using this
      refine ⟨(results.set idx (createPlaceholderResult
          { item with prompt := buildChainPrompt item.prompt prev } (some (idx + 1))
          (some c.thinkingLevel) c.modelLabel)).set idx
          (runner idx { item with prompt := buildChainPrompt item.prompt prev } p),
        runner idx { item with prompt := buildChainPrompt item.prompt prev } p,
        ⟨_, p, rfl⟩, ?_, ?_, ?_, ?_⟩
      · simp only [chainGo, hc, hp, hfail0, if_true, List.range_succ, List.range_zero,
          List.nil_append, List.map_cons, List.map_nil, Nat.add_zero]
      · simp [List.length_set]
      · intro j hj
        have hjne : j ≠ idx := by omega
        rw [List.getElem?_set_ne (fun he => hjne he.symm),
          List.getElem?_set_ne (fun he => hjne he.symm)]
      · intro j hj1 hj2
        have hji : j = idx := by omega
        subst hji
        refine ⟨{ item with prompt := buildChainPrompt item.prompt prev }, p, ?_⟩
        rw [List.getElem?_set_eq_of_lt _ (by simpa [List.length_set] using hidxlt)]
  | succ m ih =>
    intro rest idx prev results attempted hm hlen hcfg hbuild hok hfail
    cases rest with
    | nil => simp at hm
    | cons item rest2 =>
      obtain ⟨c, hc⟩ := hcfg item (List.mem_cons_self item rest2)
      obtain ⟨p, hp⟩ := hbuild item (List.mem_cons_self item rest2)
        (buildChainPrompt item.prompt prev)
      have hidxlt : idx < results.length := by
        simp only [List.length_cons] at hlen
        omega
      have hok0 : isTaskError
          (runner idx { item with prompt := buildChainPrompt item.prompt prev } p) = false :=
        hok idx _ p (Nat.le_refl idx) (by omega)
      obtain ⟨R, failResult, hfid, heq, hRlen, hunch, hrun⟩ := ih rest2 (idx + 1)
        (getFinalOutput
          (runner idx { item with prompt := buildChainPrompt item.prompt prev } p).messages)
        ((results.set idx (createPlaceholderResult
          { item with prompt := buildChainPrompt item.prompt prev } (some (idx + 1))
          (some c.thinkingLevel) c.modelLabel)).set idx
          (runner idx { item with prompt := buildChainPrompt item.prompt prev } p))
        (attempted ++ [idx + 1])
        (by simp only [List.length_cons] at hm; omega)
        (by simp only [List.length_set, List.length_cons] at hlen ⊢; omega)
        (fun item2 hmem => hcfg item2 (List.mem_cons_of_mem item hmem))
        (fun item2 hmem => hbuild item2 (List.mem_cons_of_mem item hmem))
        (fun j item2 p2 hj1 hj2 => hok j item2 p2 (by omega) (by omega))
        (fun item2 p2 => by
          have h3 := hfail item2 p2
          rwa [show idx + (m + 1) = idx + 1 + m from by omega] at h3)
      refine ⟨R, failResult, ?_, ?_, ?_, ?_, ?_⟩
      · rcases hfid with ⟨item2, p2, hfid⟩
        exact ⟨item2, p2, by rwa [show idx + 1 + m = idx + (m + 1) from by omega] at hfid⟩
      · simp only [chainGo, hc, hp, hok0, Bool.false_eq_true, if_false]
        rw [heq]
        simp only [ChainOutcome.mk.injEq]
        refine ⟨?_, trivial, trivial, ?_⟩
        · rw [show idx + 1 + m + 1 = idx + (m + 1) + 1 from by omega]
        · exact chainAttempted_shift attempted idx (m + 1)
      · rw [hRlen]
        simp [List.length_set]
      · intro j hj
        have hjne : j ≠ idx := by omega
        have h1 : R[j]? = ((results.set idx (createPlaceholderResult
            { item with prompt := buildChainPrompt item.prompt prev } (some (idx + 1))
            (some c.thinkingLevel) c.modelLabel)).set idx
            (runner idx { item with prompt := buildChainPrompt item.prompt prev } p))[j]? := by
          refine hunch j ?_
          rcases hj with hj | hj
          · exact Or.inl (by omega)
          · exact Or.inr (by omega)
        rw [h1, List.getElem?_set_ne (fun he => hjne he.symm),
          List.getElem?_set_ne (fun he => hjne he.symm)]
      · intro j hj1 hj2
        by_cases hji : j = idx
        · have h1 := hunch idx (Or.inl (by omega))
          rw [hji, h1, List.getElem?_set_eq_of_lt _ (by simpa [List.length_set] using hidxlt)]
          exact ⟨{ item with prompt := buildChainPrompt item.prompt prev }, p, rfl⟩
        · exact hrun j (by omega) (by omega)

/-- Behaviour of the chain loop when the steps before relative position `m`
all resolve and run without a Failed classification, and step `m`'s
configuration or skill resolution fails with error `e`: the loop returns the
error immediately (with the `isError` flag left unset, as the source's early
returns do), having attempted only the earlier steps and left every entry
from the failing step onwards untouched. -/
theorem chainGo_resolve_err (dm : Option String) (dt it : String) (cm : Option CtxModel)
    (tools : List String) (buildP : TaskWorkItem → Res String)
    (runner : Nat → TaskWorkItem → String → SingleResult) (e : String) :
    ∀ (m : Nat) (rest : List TaskWorkItem) (idx : Nat) (prev : String)
      (results : List SingleResult) (attempted : List Nat) (hm : m < rest.length),
      idx + rest.length ≤ results.length →
      (∀ (j : Nat) (hj : j < m),
        (∃ c, resolveTaskConfig (rest.get ⟨j, Nat.lt_trans hj hm⟩) dm dt it cm tools = .ok c) ∧
          ∀ q : String, ∃ p, buildP { rest.get ⟨j, Nat.lt_trans hj hm⟩ with prompt := q } = .ok p) →
      (∀ (j : Nat) (item : TaskWorkItem) (p : String), idx ≤ j → j < idx + m →
        isTaskError (runner j item p) = false) →
      (∀ q : String,
        resolveTaskConfig (rest.get ⟨m, hm⟩) dm dt it cm tools = .err e ∨
          ∃ c, resolveTaskConfig (rest.get ⟨m, hm⟩) dm dt it cm tools = .ok c ∧
            buildP { rest.get ⟨m, hm⟩ with prompt := q } = .err e) →
      ∃ R : List SingleResult,
        chainGo dm dt it cm tools buildP runner idx prev results attempted rest =
          { content := e, results := R, isError := false,
            attempted := attempted ++ (List.range m).map (fun j => idx + j + 1) } ∧
        R.length = results.length ∧
        (∀ j : Nat, j < idx ∨ idx + m ≤ j → R[j]? = results[j]?) ∧
        ∀ j : Nat, idx ≤ j → j < idx + m → ∃ item p, R[j]? = some (runner j item p) := by
  intro m
  induction m with
  | zero =>
    intro rest idx prev results attempted hm hlen hearly hok hstep
    cases rest with
    | nil => simp at hm
    | cons item rest2 =>
      have hstep0 := hstep (buildChainPrompt item.prompt prev)
      have hget0 : (item :: rest2).get ⟨0, hm⟩ = item := rfl
      rw [hget0] at hstep0
      refine ⟨results, ?_, rfl, fun j hj => rfl, fun j hj1 hj2 => absurd hj2 (by omega)⟩
      rcases hstep0 with hce | ⟨c, hcok, hbe⟩
      · simp only [chainGo, hce, List.range_zero, List.map_nil, List.append_nil]
      · simp only [chainGo, hcok, hbe, List.range_zero, List.map_nil, List.append_nil]
  | succ m ih =>
    intro rest idx prev results attempted hm hlen hearly hok hstep
    cases rest with
    | nil => simp at hm
    | cons item rest2 =>
      have hm2 : m < rest2.length := by
        simp only [List.length_cons] at hm
        omega
      obtain ⟨⟨c, hc0⟩, hbp⟩ := hearly 0 (Nat.succ_pos m)
      have hc : resolveTaskConfig item dm dt it cm tools = Res.ok c := hc0
      obtain ⟨p, hp0⟩ := hbp (buildChainPrompt item.prompt prev)
      have hp : buildP { item with prompt := buildChainPrompt item.prompt prev } = Res.ok p :=
        hp0
      have hidxlt : idx < results.length := by
        simp only [List.length_cons] at hlen
        omega
      have hok0 : isTaskError
          (runner idx { item with prompt := buildChainPrompt item.prompt prev } p) = false :=
        hok idx _ p (Nat.le_refl idx) (by omega)
      obtain ⟨R, heq, hRlen, hunch, hrun⟩ := ih rest2 (idx + 1)
        (getFinalOutput
          (runner idx { item with prompt := buildChainPrompt item.prompt prev } p).messages)
        ((results.set idx (createPlaceholderResult
          { item with prompt := buildChainPrompt item.prompt prev } (some (idx + 1))
          (some c.thinkingLevel) c.modelLabel)).set idx
          (runner idx { item with prompt := buildChainPrompt item.prompt prev } p))
        (attempted ++ [idx + 1]) hm2
        (by simp only [List.length_set, List.length_cons] at hlen ⊢; omega)
        (fun j hj => hearly (j + 1) (Nat.succ_lt_succ hj))
        (fun j item2 p2 hj1 hj2 => hok j item2 p2 (by omega) (by omega))
        (fun q => hstep q)
      refine ⟨R, ?_, ?_, ?_, ?_⟩
      · simp only [chainGo, hc, hp, hok0, Bool.false_eq_true, if_false]
        rw [heq]
        simp only [ChainOutcome.mk.injEq]
        exact ⟨trivial, trivial, trivial, chainAttempted_shift attempted idx m⟩
      · rw [hRlen]
        simp [List.length_set]
      · intro j hj
        have hjne : j ≠ idx := by omega
        have h1 : R[j]? = ((results.set idx (createPlaceholderResult
            { item with prompt := buildChainPrompt item.prompt prev } (some (idx + 1))
            (some c.thinkingLevel) c.modelLabel)).set idx
            (runner idx { item with prompt := buildChainPrompt item.prompt prev } p))[j]? := by
          refine hunch j ?_
          rcases hj with hj | hj
          · exact Or.inl (by omega)
          · exact Or.inr (by omega)
        rw [h1, List.getElem?_set_ne (fun he => hjne he.symm),
          List.getElem?_set_ne (fun he => hjne he.symm)]
      · intro j hj1 hj2
        by_cases hji : j = idx
        · have h1 := hunch idx (Or.inl (by omega))
          rw [hji, h1, List.getElem?_set_eq_of_lt _ (by simpa [List.length_set] using hidxlt)]
          exact ⟨{ item with prompt := buildChainPrompt item.prompt prev }, p, rfl⟩
        · exact hrun j (by omega) (by omega)

/-- Claim C2: chain fail-fast. With configuration and skill resolution
succeeding on every step and every subprocess run settling (non-negative
exit code), if the run of 1-based step `k + 1` is the first whose result
classifies as Failed, the chain stops right there: the outcome carries the
error flag, exactly steps `1 .. k + 1` were attempted (later steps are never
started), each attempted entry of the results array is its run result and is
completed (neither Pending nor Running), and each later entry is still the
untouched Pending placeholder. If instead step `k + 1`'s configuration or
skill resolution fails with error `e` after the earlier steps ran without a
Failed classification, the chain returns `e` having attempted exactly steps
`1 .. k`, with completed run results for those steps and every entry from
step `k + 1` on still the Pending placeholder. In particular, in a 3-step
chain where step 2 fails, steps 1 and 2 are the completed entries and step 3
is never attempted. -/
theorem c2_chain_fail_fast (items : List TaskWorkItem) (dm : Option String)
    (dt it : String) (cm : Option CtxModel) (tools : List String)
    (buildP : TaskWorkItem → Res String)
    (runner : Nat → TaskWorkItem → String → SingleResult) (k : Nat) (o : ChainOutcome)
    (hk : k < items.length)
    (ho : o = chainExec items dm dt it cm tools buildP runner)
    (hpost : ∀ (j : Nat) (item : TaskWorkItem) (p : String), 0 ≤ (runner j item p).exitCode) :
    ((∀ item ∈ items, ∃ c, resolveTaskConfig item dm dt it cm tools = .ok c) →
      (∀ item ∈ items, ∀ q : String, ∃ p, buildP { item with prompt := q } = .ok p) →
      (∀ (j : Nat) (item : TaskWorkItem) (p : String), j < k →
        isTaskError (runner j item p) = false) →
      (∀ (item : TaskWorkItem) (p : String), isTaskError (runner k item p) = true) →
      o.isError = true ∧
        o.attempted = (List.range (k + 1)).map (fun j => j + 1) ∧
        o.results.length = items.length ∧
        (∀ j : Nat, j ≤ k →
          (∃ item p, o.results[j]? = some (runner j item p)) ∧
            getTaskStatus ((o.results[j]?).getD emptySingleResult) ≠ .Pending ∧
            getTaskStatus ((o.results[j]?).getD emptySingleResult) ≠ .Running) ∧
        ∀ (j : Nat) (hj : j < items.length), k < j →
          o.results[j]? = some (createPlaceholderResult
            { items.get ⟨j, hj⟩ with
                prompt := buildPendingPrompt (items.get ⟨j, hj⟩).prompt }
            (some (j + 1)) none none (-2)) ∧
            getTaskStatus ((o.results[j]?).getD emptySingleResult) = .Pending) ∧
    ∀ e : String,
      (∀ (j : Nat) (hj : j < k),
        (∃ c, resolveTaskConfig (items.get ⟨j, Nat.lt_trans hj hk⟩) dm dt it cm tools = .ok c) ∧
          ∀ q : String,
            ∃ p, buildP { items.get ⟨j, Nat.lt_trans hj hk⟩ with prompt := q } = .ok p) →
      (∀ (j : Nat) (item : TaskWorkItem) (p : String), j < k →
        isTaskError (runner j item p) = false) →
      (∀ q : String,
        resolveTaskConfig (items.get ⟨k, hk⟩) dm dt it cm tools = .err e ∨
          ∃ c, resolveTaskConfig (items.get ⟨k, hk⟩) dm dt it cm tools = .ok c ∧
            buildP { items.get ⟨k, hk⟩ with prompt := q } = .err e) →
      o.content = e ∧ o.isError = false ∧
        o.attempted = (List.range k).map (fun j => j + 1) ∧
        o.results.length = items.length ∧
        (∀ j : Nat, j < k →
          (∃ item p, o.results[j]? = some (runner j item p)) ∧
            getTaskStatus ((o.results[j]?).getD emptySingleResult) ≠ .Pending ∧
            getTaskStatus ((o.results[j]?).getD emptySingleResult) ≠ .Running) ∧
        ∀ (j : Nat) (hj : j < items.length), k ≤ j →
          o.results[j]? = some (createPlaceholderResult
            { items.get ⟨j, hj⟩ with
                prompt := buildPendingPrompt (items.get ⟨j, hj⟩).prompt }
            (some (j + 1)) none none (-2)) ∧
            getTaskStatus ((o.results[j]?).getD emptySingleResult) = .Pending := by
  have hce : chainExec items dm dt it cm tools buildP runner =
      chainGo dm dt it cm tools buildP runner 0 "" (items.mapIdx (fun index item =>
        createPlaceholderResult { item with prompt := buildPendingPrompt item.prompt }
          (some (index + 1)) none none (-2))) [] items := rfl
  constructor
  · intro hcfg hbuild hok hfail
    obtain ⟨R, failResult, hfid, heq, hRlen, hunch, hrun⟩ :=
      chainGo_runner_fail dm dt it cm tools buildP runner k items 0 ""
        (items.mapIdx (fun index item =>
          createPlaceholderResult { item with prompt := buildPendingPrompt item.prompt }
            (some (index + 1)) none none (-2))) [] hk
        (by simp) hcfg hbuild
        (fun j item p h0 hj => hok j item p (by omega))
        (fun item p => by simpa using hfail item p)
    rw [ho, hce, heq]
    refine ⟨rfl, ?_, ?_, ?_, ?_⟩
    · dsimp only
      rw [List.nil_append]
      exact List.map_congr_left (fun a ha => by omega)
    · dsimp only
      rw [hRlen]
      simp
    · intro j hj
      dsimp only
      obtain ⟨item2, p2, hR⟩ := hrun j (Nat.zero_le j) (by omega)
      rw [hR]
      exact ⟨⟨item2, p2, rfl⟩, (settled_not_pending _ (hpost j item2 p2)).1,
        (settled_not_pending _ (hpost j item2 p2)).2⟩
    · intro j hj hkj
      dsimp only
      have h1 := hunch j (Or.inr (by omega))
      rw [h1, List.getElem?_mapIdx, List.getElem?_eq_getElem hj, Option.map_some']
      exact ⟨rfl, placeholder_pending _ _ _ _⟩
  · intro e hearly hok hstep
    obtain ⟨R, heq, hRlen, hunch, hrun⟩ :=
      chainGo_resolve_err dm dt it cm tools buildP runner e k items 0 ""
        (items.mapIdx (fun index item =>
          createPlaceholderResult { item with prompt := buildPendingPrompt item.prompt }
            (some (index + 1)) none none (-2))) [] hk
        (by simp) hearly
        (fun j item p h0 hj => hok j item p (by omega))
        hstep
    rw [ho, hce, heq]
    refine ⟨rfl, rfl, ?_, ?_, ?_, ?_⟩
    · dsimp only
      rw [List.nil_append]
      exact List.map_congr_left (fun a ha => by omega)
    · dsimp only
      rw [hRlen]
      simp
    · intro j hj
      dsimp only
      obtain ⟨item2, p2, hR⟩ := hrun j (Nat.zero_le j) (by omega)
      rw [hR]
      exact ⟨⟨item2, p2, rfl⟩, (settled_not_pending _ (hpost j item2 p2)).1,
        (settled_not_pending _ (hpost j item2 p2)).2⟩
    · intro j hj hkj
      dsimp only
      have h1 := hunch j (Or.inr (by omega))
      rw [h1, List.getElem?_mapIdx, List.getElem?_eq_getElem hj, Option.map_some']
      exact ⟨rfl, placeholder_pending _ _ _ _⟩

/-- Claim C2, witness: on the concrete 3-step chain where the run of step 2
is the first to fail, the outcome is flagged as an error, exactly steps 1
and 2 were attempted and step 3's entry is still Pending; and on the
concrete 3-step chain where step 2's skill fails to resolve, the outcome
carries that error having attempted only step 1. -/
theorem c2_chain_fail_fast_witness :
    (chainExec chainDemoItems none "low" "low" none [] (fun item => .ok item.prompt)
        chainDemoRunner).isError = true ∧
      (chainExec chainDemoItems none "low" "low" none [] (fun item => .ok item.prompt)
        chainDemoRunner).attempted = [1, 2] ∧
      (chainExec chainDemoItems none "low" "low" none [] (fun item => .ok item.prompt)
        chainDemoRunner).results.length = 3 ∧
      getTaskStatus (((chainExec chainDemoItems none "low" "low" none []
        (fun item => .ok item.prompt) chainDemoRunner).results[2]?).getD emptySingleResult) =
        .Pending ∧
      (chainExec chainDemoItemsB none "low" "low" none [] chainDemoBuildP
        chainDemoRunner).content = "Skill not found: missing" ∧
      (chainExec chainDemoItemsB none "low" "low" none [] chainDemoBuildP
        chainDemoRunner).attempted = [1] := by
  have hpost : ∀ (j : Nat) (item : TaskWorkItem) (p : String),
      0 ≤ (chainDemoRunner j item p).exitCode := by
    intro j item p
    by_cases h : j = 1 <;> simp [chainDemoRunner, h]
  have hA := (c2_chain_fail_fast chainDemoItems none "low" "low" none []
      (fun item => .ok item.prompt) chainDemoRunner 1 _ (by decide) rfl hpost).1
    (by intro item h; fin_cases h <;> exact ⟨_, rfl⟩)
    (by intro item h q; exact ⟨q, rfl⟩)
    (by intro j item p hj
        have h0 : j = 0 := by omega
        subst h0
        rfl)
    (fun item p => rfl)
  have hB := (c2_chain_fail_fast chainDemoItemsB none "low" "low" none []
      chainDemoBuildP chainDemoRunner 1 _ (by decide) rfl hpost).2
    "Skill not found: missing"
    (by intro j hj
        have h0 : j = 0 := by omega
        subst h0
        exact ⟨⟨_, rfl⟩, fun q => ⟨q, rfl⟩⟩)
    (by intro j item p hj
        have h0 : j = 0 := by omega
        subst h0
        rfl)
    (fun q => Or.inr ⟨_, rfl, rfl⟩)
  refine ⟨hA.1, hA.2.1.trans (by decide), hA.2.2.1.trans (by decide),
    (hA.2.2.2.2 2 (by decide) (by decide)).2, hB.1, hB.2.2.1.trans (by decide)⟩

end TaskTool
